import Mathlib

/-!
Verification development for the PySweeper board core
(`src/pysweeper/board.py` plus the `pysweeper.cell` module it imports).

Coordinates: the source addresses cells by pairs of symbols drawn from
`COORD_LIST = "0123456789ABCDEFGHIJKLMNOPQRSTUVWXYZ"` and converts between a
symbol and its index with `COORD_LIST.index` / `COORD_LIST[i]`, a bijection
between the symbols and the indices `0..35`.  The embedding works directly
with the index pairs `(row, col) : Nat × Nat`.

Machine integers: Python integers are unbounded, so sizes and bounds are
embedded as `Int` / `Nat` with no wrap-around.
-/

/-- Modelled from the spec: the repository's `board.py` imports `pysweeper.cell`,
whose source file is missing from the tree.  Spec section 4.1 describes the cell
as pure state: a `label` (mine marker or digit string), `isMine` fixed at
creation, `isOpen` (monotonic), and `isFlagged` (player-toggled).  The board
constructs cells with `cell.GameCell(name=..., mine=...)`, so the label field is
called `name` here, matching the `name()` accessor used by `board.py`. -/
structure GameCell where
  name : String
  mine : Bool
  is_open : Bool := false
  is_flagged : Bool := false
deriving DecidableEq, Repr

/-- Modelled from the spec: `Cell.open() -> bool` sets `isOpen = true` as a side
effect regardless of mine status and returns whether the cell is a mine (true
means a mine was detonated).  The returned pair is (mine?, updated cell). -/
def GameCell.openCell (c : GameCell) : Bool × GameCell :=
  (c.mine, { c with is_open := true })

/-- Modelled from the spec: `isSafe()` is true iff the cell is not a mine and its
neighbour-mine count is zero; the count is stored as the label, so the check is
against the label "0". -/
def GameCell.is_safe (c : GameCell) : Bool :=
  !c.mine && c.name == "0"

/-- Modelled from the spec: `toggle()` flips `isFlagged`. -/
def GameCell.toggle (c : GameCell) : GameCell :=
  { c with is_flagged := !c.is_flagged }

/-- Model of Python's `int(s)` as used on cell labels in `GameBoard.open`
(`int(self._board[(row, col)].name())`): a string of decimal digits parses to
the corresponding number, anything else (in particular the mine marker "M")
raises `ValueError`, modelled as `none`. -/
def pyInt (s : String) : Option Nat :=
  if s.data ≠ [] ∧ s.data.all (fun c => decide ('0' ≤ c) && decide (c ≤ '9')) then
    some (s.data.foldl (fun n c => n * 10 + (c.toNat - '0'.toNat)) 0)
  else none

/-- Model of Python's `range(a, b)` over `Int`, used by `_get_neighbors`. -/
def intRange (a b : Int) : List Int :=
  (List.range (b - a).toNat).map (fun (i : Nat) => a + (i : Int))

/-- Embedding of `GameBoard._get_neighbors(_cell)` (the unfiltered mode), which
only depends on the board dimensions: the comprehension over
`range(r-1, r+2) x range(c-1, c+2)` filtered by `(r, c) != (r2, c2)` and
`0 <= r2 <= r_size - 1` and `0 <= c2 <= c_size - 1`, in source order.  The
final `map` converts the in-bounds `Int` indices back to `Nat` coordinates
(the source converts indices back to `COORD_LIST` symbols). -/
def neighborsOf (rs cs : Nat) (p : Nat × Nat) : List (Nat × Nat) :=
  (((intRange ((p.1 : Int) - 1) ((p.1 : Int) + 2)).flatMap
      (fun r2 => (intRange ((p.2 : Int) - 1) ((p.2 : Int) + 2)).map (fun c2 => (r2, c2)))).filter
    (fun q => decide ((((p.1 : Int) ≠ q.1 ∨ (p.2 : Int) ≠ q.2) ∧
      0 ≤ q.1 ∧ q.1 ≤ (rs : Int) - 1) ∧ 0 ≤ q.2 ∧ q.2 ≤ (cs : Int) - 1))).map
    (fun q => (q.1.toNat, q.2.toNat))

/-- Embedding of `self._board_cells = [(r, c) for r in COORD_LIST[:r_size] for c
in COORD_LIST[:c_size]]`, with symbols replaced by their indices. -/
def boardCoords (rs cs : Nat) : List (Nat × Nat) :=
  (List.range rs).flatMap (fun r => (List.range cs).map (fun c => (r, c)))

/-- Embedding of the `GameBoard` state: the validated dimensions and the cell
mapping `self._board`.  The mapping is total over `Nat × Nat`; the source
dictionary has exactly the keys in `boardCoords r_size c_size`, and all board
operations only consult coordinates from that set. -/
structure GameBoard where
  r_size : Nat
  c_size : Nat
  cells : Nat × Nat → GameCell

/-- Coordinate list of the board, `self._board_cells`. -/
def GameBoard.board_cells (b : GameBoard) : List (Nat × Nat) :=
  boardCoords b.r_size b.c_size

/-- Update of one entry of the cell mapping (the effect of mutating
`self._board[(row, col)]` in place). -/
def GameBoard.setCell (b : GameBoard) (p : Nat × Nat) (c : GameCell) : GameBoard :=
  { b with cells := fun q => if q = p then c else b.cells q }

/-- Embedding of `GameBoard._create_board` for a given sampled mine list
(`self._mine_cells = random.sample(self._board_cells, self.mines_left)` is
passed in as `mines`): a mine coordinate gets `GameCell(name="M", mine=True)`,
any other coordinate gets the count of mine cells among its neighbours as its
label. -/
def GameBoard.create (rs cs : Nat) (mines : List (Nat × Nat)) : GameBoard :=
  { r_size := rs
    c_size := cs
    cells := fun p =>
      if p ∈ mines then { name := "M", mine := true }
      else
        { name := toString ((neighborsOf rs cs p).filter (fun q => decide (q ∈ mines))).length
          mine := false } }

/-- Embedding of `_get_neighbors(_cell)` as a board method. -/
def GameBoard.get_neighbors (b : GameBoard) (p : Nat × Nat) : List (Nat × Nat) :=
  neighborsOf b.r_size b.c_size p

/-- Embedding of `_get_neighbors(_cell, flagged=True)`. -/
def GameBoard.get_neighbors_flagged (b : GameBoard) (p : Nat × Nat) : List (Nat × Nat) :=
  (b.get_neighbors p).filter (fun q => (b.cells q).is_flagged)

/-- Embedding of `_get_neighbors(_cell, unmarked=True)`: neighbours that are
neither flagged nor open. -/
def GameBoard.get_neighbors_unmarked (b : GameBoard) (p : Nat × Nat) : List (Nat × Nat) :=
  (b.get_neighbors p).filter (fun q => !(b.cells q).is_flagged && !(b.cells q).is_open)

/-- Embedding of `GameBoard.flag`: toggles the flag of the addressed cell
unconditionally. -/
def GameBoard.flag (b : GameBoard) (p : Nat × Nat) : GameBoard :=
  b.setCell p (b.cells p).toggle

/-- Embedding of `GameBoard.reveal`: calls `open()` on every cell of the
mapping, i.e. marks every cell open. -/
def GameBoard.reveal (b : GameBoard) : GameBoard :=
  { b with cells := fun q => { b.cells q with is_open := true } }

/-- Embedding of `GameBoard._num_flagged`. -/
def GameBoard.num_flagged (b : GameBoard) : Nat :=
  (b.board_cells.filter (fun p => (b.cells p).is_flagged)).length

/-- Embedding of `GameBoard.complete`: the board cell count equals the flagged
count plus the open count. -/
def GameBoard.complete (b : GameBoard) : Bool :=
  b.board_cells.length ==
    b.num_flagged + (b.board_cells.filter (fun p => (b.cells p).is_open)).length

/-- Embedding of `GameBoard.is_cell`. -/
def GameBoard.is_cell (b : GameBoard) (p : Nat × Nat) : Bool :=
  decide (p ∈ b.board_cells)

/-- Outcome of one `GameBoard.open` call.  `ret v` is a normal `return v`;
`exn` is an uncaught `ValueError` escaping from `int(...)` on a non-numeric
label; `fuelOut` is an artefact of the fuel-indexed embedding of the
recursion and never occurs for sufficient fuel (proved below). -/
inductive PyResult where
  | ret (cont : Bool)
  | exn
  | fuelOut
deriving DecidableEq, Repr

/-- Sequencing of recursive `self.open(...)` calls over a list of coordinates
(the `for` loops inside `GameBoard.open`).  Return values of the recursive
calls are discarded; an exception (or fuel exhaustion) aborts the loop and
propagates, keeping the state mutated so far. -/
def openList (g : GameBoard → Nat × Nat → PyResult × GameBoard) :
    GameBoard → List (Nat × Nat) → PyResult × GameBoard
  | b, [] => (PyResult.ret true, b)
  | b, q :: rest =>
    match g b q with
    | (PyResult.ret _, b1) => openList g b1 rest
    | (r, b1) => (r, b1)

/-- Embedding of `GameBoard.open(row, col)`, indexed by fuel bounding the
recursion depth (each recursive call runs at fuel one less).  Branches in
source order: a flagged target is refused (return True, no state change); an
open target is a chord — `int(label)` may raise, and if the label equals the
number of flagged neighbours every unmarked neighbour is opened recursively,
return True either way; otherwise the cell is opened via `Cell.open()`:
a mine returns False, a safe cell recursively opens its unmarked neighbours,
and the call returns True. -/
def openFuel : Nat → GameBoard → Nat × Nat → PyResult × GameBoard
  | 0, b, _ => (PyResult.fuelOut, b)
  | f + 1, b, p =>
    if (b.cells p).is_flagged then (PyResult.ret true, b)
    else if (b.cells p).is_open then
      match pyInt (b.cells p).name with
      | none => (PyResult.exn, b)
      | some n =>
        if n = (b.get_neighbors_flagged p).length then
          match openList (openFuel f) b (b.get_neighbors_unmarked p) with
          | (PyResult.ret _, b1) => (PyResult.ret true, b1)
          | (r, b1) => (r, b1)
        else (PyResult.ret true, b)
    else
      match (b.cells p).openCell with
      | (isMine, c1) =>
        let b1 := b.setCell p c1
        if isMine then (PyResult.ret false, b1)
        else if (b1.cells p).is_safe then
          match openList (openFuel f) b1 (b1.get_neighbors_unmarked p) with
          | (PyResult.ret _, b2) => (PyResult.ret true, b2)
          | (r, b2) => (r, b2)
        else (PyResult.ret true, b1)

/-- The `open` entry point: fuel `r_size * c_size + 1` suffices because the
recursion depth is bounded by the cell count (proved below). -/
def GameBoard.openCoord (b : GameBoard) (p : Nat × Nat) : PyResult × GameBoard :=
  openFuel (b.r_size * b.c_size + 1) b p

/-- Player-visible board operations, used to express reachability of a state
from a constructed board. -/
inductive Op where
  | openOp (p : Nat × Nat)
  | flagOp (p : Nat × Nat)
  | revealOp
deriving DecidableEq, Repr

/-- Application of one operation (the result value of `open` is discarded, as
in the game loop, which only uses it to decide whether to stop). -/
def applyOp (b : GameBoard) : Op → GameBoard
  | Op.openOp p => (b.openCoord p).2
  | Op.flagOp p => b.flag p
  | Op.revealOp => b.reveal

/-- Application of a sequence of operations. -/
def applyOps (b : GameBoard) (ops : List Op) : GameBoard :=
  ops.foldl applyOp b

/-- Error taxonomy of board construction: `dimension` for the `ValueError`
raised by the `r_size` / `c_size` setters, `mineCount` for the one raised by
the `mines_left` setter. -/
inductive InitError where
  | dimension
  | mineCount
deriving DecidableEq, Repr

/-- Embedding of the `r_size` setter: accepts `1 < size <= max_r`, otherwise
raises a dimension `ValueError`. -/
def set_r_size (maxR size : Int) : Except InitError Nat :=
  if 1 < size ∧ size ≤ maxR then Except.ok size.toNat else Except.error InitError.dimension

/-- Embedding of the `c_size` setter: accepts `1 < size <= max_c`. -/
def set_c_size (maxC size : Int) : Except InitError Nat :=
  if 1 < size ∧ size ≤ maxC then Except.ok size.toNat else Except.error InitError.dimension

/-- Embedding of the `mines_left` setter.  `rnd` is the value returned by
`random.randrange(1, r_size * c_size)` (a uniform draw from
`[1, r_size * c_size - 1]`), passed in as the model of the randomness. -/
def set_mines_left (rs cs : Nat) (m rnd : Int) : Except InitError Nat :=
  let m1 : Int := if m < 1 then rnd else m
  if m1 > (rs : Int) * (cs : Int) - 1 then Except.error InitError.mineCount
  else Except.ok m1.toNat

/-- Embedding of `GameBoard.__init__(r_size, c_size, num_mines)`: validate the
dimensions against the externally supplied maxima, resolve the mine count,
then create the board.  `sampleFn k` models `random.sample(board_cells, k)`;
its characterising properties (length `k`, no duplicates, drawn from the
board coordinates) are hypotheses where needed. -/
def mkGameBoard (maxR maxC r c m rnd : Int) (sampleFn : Nat → List (Nat × Nat)) :
    Except InitError GameBoard :=
  match set_r_size maxR r with
  | Except.error e => Except.error e
  | Except.ok rs =>
    match set_c_size maxC c with
    | Except.error e => Except.error e
    | Except.ok cs =>
      match set_mines_left rs cs m rnd with
      | Except.error e => Except.error e
      | Except.ok nm => Except.ok (GameBoard.create rs cs (sampleFn nm))

/-! ### Basic state lemmas -/

/-- Relation between a board state and any state reachable from it by `open`
calls: dimensions are unchanged and every cell is either unchanged or merely
marked open (labels, mine status and flags never change). -/
def Evolves (b b' : GameBoard) : Prop :=
  b'.r_size = b.r_size ∧ b'.c_size = b.c_size ∧
    ∀ q, b'.cells q = b.cells q ∨ b'.cells q = { b.cells q with is_open := true }

theorem Evolves.refl (b : GameBoard) : Evolves b b :=
  ⟨rfl, rfl, fun _ => Or.inl rfl⟩

theorem Evolves.trans {a b c : GameBoard} (h1 : Evolves a b) (h2 : Evolves b c) :
    Evolves a c := by
  refine ⟨h2.1.trans h1.1, h2.2.1.trans h1.2.1, fun q => ?_⟩
  rcases h2.2.2 q with h | h <;> rcases h1.2.2 q with h' | h'
  · exact Or.inl (by rw [h, h'])
  · exact Or.inr (by rw [h, h'])
  · exact Or.inr (by rw [h, h'])
  · exact Or.inr (by rw [h, h'])

theorem Evolves.name {b b' : GameBoard} (h : Evolves b b') (q : Nat × Nat) :
    (b'.cells q).name = (b.cells q).name := by
  rcases h.2.2 q with h' | h' <;> simp [h']

theorem Evolves.mine {b b' : GameBoard} (h : Evolves b b') (q : Nat × Nat) :
    (b'.cells q).mine = (b.cells q).mine := by
  rcases h.2.2 q with h' | h' <;> simp [h']

theorem Evolves.flagged {b b' : GameBoard} (h : Evolves b b') (q : Nat × Nat) :
    (b'.cells q).is_flagged = (b.cells q).is_flagged := by
  rcases h.2.2 q with h' | h' <;> simp [h']

theorem Evolves.open_mono {b b' : GameBoard} (h : Evolves b b') (q : Nat × Nat)
    (hq : (b.cells q).is_open = true) : (b'.cells q).is_open = true := by
  rcases h.2.2 q with h' | h' <;> simp [h', hq]

theorem Evolves.board_cells_eq {b b' : GameBoard} (h : Evolves b b') :
    b'.board_cells = b.board_cells := by
  simp [GameBoard.board_cells, h.1, h.2.1]

theorem setCell_cells (b : GameBoard) (p : Nat × Nat) (c : GameCell) (q : Nat × Nat) :
    (b.setCell p c).cells q = if q = p then c else b.cells q := rfl

theorem evolves_setCell_open (b : GameBoard) (p : Nat × Nat) :
    Evolves b (b.setCell p { b.cells p with is_open := true }) := by
  refine ⟨rfl, rfl, fun q => ?_⟩
  by_cases h : q = p <;> simp [setCell_cells, h]

/-- Any opener `g` that evolves the state makes `openList g` evolve the state. -/
theorem evolves_openList (g : GameBoard → Nat × Nat → PyResult × GameBoard)
    (hg : ∀ b q, Evolves b (g b q).2) :
    ∀ b L, Evolves b (openList g b L).2 := by
  intro b L
  induction L generalizing b with
  | nil => exact Evolves.refl b
  | cons q rest ih =>
    show Evolves b (match g b q with
      | (PyResult.ret _, b1) => openList g b1 rest
      | (r, b1) => (r, b1)).2
    rcases hgq : g b q with ⟨r, b1⟩
    have h1 : Evolves b b1 := by have h := hg b q; rw [hgq] at h; exact h
    cases r with
    | ret v => exact h1.trans (ih b1)
    | exn => exact h1
    | fuelOut => exact h1

theorem evolves_openFuel : ∀ (f : Nat) (b : GameBoard) (p : Nat × Nat),
    Evolves b (openFuel f b p).2 := by
  intro f
  induction f with
  | zero => exact fun b p => Evolves.refl b
  | succ f ih =>
    intro b p
    show Evolves b (openFuel (f + 1) b p).2
    rw [openFuel]
    split
    · exact Evolves.refl b
    · split
      · split
        · exact Evolves.refl b
        · split
          · rcases hL : openList (openFuel f) b (b.get_neighbors_unmarked p) with ⟨r, b1⟩
            have h1 : Evolves b b1 := by
              have := evolves_openList (openFuel f) (fun b q => ih b q) b
                (b.get_neighbors_unmarked p)
              rwa [hL] at this
            cases r <;> simp_all
          · exact Evolves.refl b
      · simp only [GameCell.openCell]
        have hb1 : Evolves b (b.setCell p { b.cells p with is_open := true }) :=
          evolves_setCell_open b p
        split
        · exact hb1
        · split
          · rcases hL : openList (openFuel f)
              (b.setCell p { b.cells p with is_open := true })
              (GameBoard.get_neighbors_unmarked
                (b.setCell p { b.cells p with is_open := true }) p) with ⟨r, b2⟩
            have h2 : Evolves (b.setCell p { b.cells p with is_open := true }) b2 := by
              have h := evolves_openList (openFuel f) (fun b q => ih b q)
                (b.setCell p { b.cells p with is_open := true })
                (GameBoard.get_neighbors_unmarked
                  (b.setCell p { b.cells p with is_open := true }) p)
              rwa [hL] at h
            cases r <;> exact hb1.trans h2
          · exact hb1

/-! ### Coordinate and counting lemmas -/

theorem mem_intRange {a b x : Int} : x ∈ intRange a b ↔ a ≤ x ∧ x < b := by
  simp only [intRange, List.mem_map, List.mem_range]
  constructor
  · rintro ⟨i, hi, rfl⟩
    omega
  · rintro ⟨h1, h2⟩
    exact ⟨(x - a).toNat, by omega, by omega⟩


theorem intRange_three (a : Int) : intRange (a - 1) (a + 2) = [a - 1, a, a + 1] := by
  have h3 : (a + 2 - (a - 1)).toNat = 3 := by omega
  rw [intRange, h3]
  simp [List.range_succ, List.cons.injEq]
  omega

theorem mem_boardCoords {rs cs : Nat} {p : Nat × Nat} :
    p ∈ boardCoords rs cs ↔ p.1 < rs ∧ p.2 < cs := by
  rcases p with ⟨r, c⟩
  simp [boardCoords, List.mem_flatMap, List.mem_map, List.mem_range, eq_comm]

theorem boardCoords_length (rs cs : Nat) : (boardCoords rs cs).length = rs * cs := by
  induction rs with
  | zero => simp [boardCoords]
  | succ n ih =>
    rw [boardCoords, List.range_succ, List.flatMap_append, List.length_append]
    rw [boardCoords] at ih
    rw [ih]
    simp [Nat.succ_mul]

/-- Characterisation of the neighbour list: the in-bounds Moore neighbourhood,
i.e. the cells at Chebyshev distance exactly one (at most one step in each
axis, not the cell itself), clipped to the board bounds. -/
theorem mem_neighborsOf {rs cs : Nat} {p q : Nat × Nat} :
    q ∈ neighborsOf rs cs p ↔
      ((q.1 ≠ p.1 ∨ q.2 ≠ p.2) ∧ q.1 < rs ∧ q.2 < cs ∧
        q.1 ≤ p.1 + 1 ∧ p.1 ≤ q.1 + 1 ∧ q.2 ≤ p.2 + 1 ∧ p.2 ≤ q.2 + 1) := by
  rcases p with ⟨pr, pc⟩
  rcases q with ⟨qr, qc⟩
  constructor
  · intro h
    obtain ⟨z, hz, hq⟩ := List.mem_map.mp h
    obtain ⟨hzmem, hzpred⟩ := List.mem_filter.mp hz
    obtain ⟨r2, hr2, hzin⟩ := List.mem_flatMap.mp hzmem
    obtain ⟨c2, hc2, hzeq⟩ := List.mem_map.mp hzin
    subst hzeq
    rw [mem_intRange] at hr2 hc2
    simp only [decide_eq_true_eq] at hzpred
    obtain ⟨⟨hne, h0r, hrle⟩, h0c, hcle⟩ := hzpred
    simp only at hq h0r hrle h0c hcle hne
    injection hq with hq1 hq2
    subst hq1
    subst hq2
    refine ⟨?_, by omega, by omega, by omega, by omega, by omega, by omega⟩
    rcases hne with h | h
    · left; omega
    · right; omega
  · rintro ⟨hne, hqr, hqc, h1, h2, h3, h4⟩
    refine List.mem_map.mpr ⟨((qr : Int), (qc : Int)), List.mem_filter.mpr ⟨?_, ?_⟩, by simp⟩
    · refine List.mem_flatMap.mpr ⟨(qr : Int), mem_intRange.mpr (by omega),
        List.mem_map.mpr ⟨(qc : Int), mem_intRange.mpr (by omega), rfl⟩⟩
    · simp only [decide_eq_true_eq]
      refine ⟨⟨?_, by omega, by omega⟩, by omega, by omega⟩
      rcases hne with h | h
      · left; omega
      · right; omega

theorem neighborsOf_subset_board {rs cs : Nat} {p q : Nat × Nat}
    (h : q ∈ neighborsOf rs cs p) : q ∈ boardCoords rs cs := by
  rw [mem_boardCoords]
  have h' := mem_neighborsOf.mp h
  exact ⟨h'.2.1, h'.2.2.1⟩

theorem length_neighborsOf_le (rs cs : Nat) (p : Nat × Nat) :
    (neighborsOf rs cs p).length ≤ 9 := by
  rw [neighborsOf]
  have e1 : ((p.1 : Int) - 1 + 2) = (p.1 : Int) + 1 := by omega
  rw [List.length_map]
  refine le_trans (List.length_filter_le _ _) ?_
  rw [intRange_three, intRange_three]
  simp

/-- Number of cells of the board that are not yet open. -/
def unopenedCount (b : GameBoard) : Nat :=
  (b.board_cells.filter (fun p => !(b.cells p).is_open)).length

theorem length_filter_le_filter {α : Type} (l : List α) (p q : α → Bool)
    (hmono : ∀ x ∈ l, p x = true → q x = true) :
    (l.filter p).length ≤ (l.filter q).length := by
  rw [← List.countP_eq_length_filter, ← List.countP_eq_length_filter]
  exact List.countP_mono_left hmono

theorem length_filter_lt_filter {α : Type} (l : List α) (p q : α → Bool)
    (hmono : ∀ x ∈ l, p x = true → q x = true) (a : α) (ha : a ∈ l)
    (hpa : p a = false) (hqa : q a = true) :
    (l.filter p).length < (l.filter q).length := by
  induction l with
  | nil => cases ha
  | cons x t ih =>
    have hmt : ∀ y ∈ t, p y = true → q y = true := fun y hy => hmono y (List.mem_cons_of_mem x hy)
    rcases List.mem_cons.mp ha with rfl | hat
    · rw [List.filter_cons_of_neg (by simp [hpa]), List.filter_cons_of_pos (by simp [hqa])]
      exact Nat.lt_succ_of_le (length_filter_le_filter t p q hmt)
    · by_cases hx : p x = true
      · rw [List.filter_cons_of_pos (by simp [hx]),
          List.filter_cons_of_pos (by simp [hmono x (List.mem_cons_self x t) hx])]
        exact Nat.succ_lt_succ (ih hmt hat)
      · rw [List.filter_cons_of_neg (by simpa using hx)]
        by_cases hqx : q x = true
        · rw [List.filter_cons_of_pos (by simp [hqx])]
          exact Nat.lt_succ_of_lt (ih hmt hat)
        · rw [List.filter_cons_of_neg (by simpa using hqx)]
          exact ih hmt hat

theorem unopenedCount_le_of_evolves {b b' : GameBoard} (h : Evolves b b') :
    unopenedCount b' ≤ unopenedCount b := by
  unfold unopenedCount
  rw [h.board_cells_eq]
  refine length_filter_le_filter _ _ _ (fun x _ hx => ?_)
  simp only [Bool.not_eq_true'] at *
  by_contra hb
  simp only [Bool.not_eq_false] at hb
  rw [h.open_mono x hb] at hx
  cases hx

theorem unopenedCount_lt_of_newly_open {b b' : GameBoard} (h : Evolves b b')
    {q : Nat × Nat} (hq : q ∈ b.board_cells) (h1 : (b.cells q).is_open = false)
    (h2 : (b'.cells q).is_open = true) : unopenedCount b' < unopenedCount b := by
  unfold unopenedCount
  rw [h.board_cells_eq]
  refine length_filter_lt_filter _ _ _ (fun x _ hx => ?_) q hq (by simp [h2]) (by simp [h1])
  simp only [Bool.not_eq_true'] at *
  by_contra hb
  simp only [Bool.not_eq_false] at hb
  rw [h.open_mono x hb] at hx
  cases hx

theorem unopenedCount_le_total (b : GameBoard) :
    unopenedCount b ≤ b.r_size * b.c_size := by
  rw [← boardCoords_length b.r_size b.c_size]
  exact List.length_filter_le _ _

theorem unopenedCount_lt_total_of_open {b : GameBoard} {p : Nat × Nat}
    (hp : p ∈ b.board_cells) (hopen : (b.cells p).is_open = true) :
    unopenedCount b < b.r_size * b.c_size := by
  rw [← boardCoords_length b.r_size b.c_size]
  have := length_filter_lt_filter b.board_cells (fun q => !(b.cells q).is_open)
    (fun _ => true) (fun _ _ _ => rfl) p hp (by simp [hopen]) rfl
  simpa [unopenedCount, GameBoard.board_cells] using this

/-! ### Fuel sufficiency: the recursion depth is bounded by the cell count -/

/-- Termination measure of one `open` call: the number of unopened cells, plus
one if the target is already open (a chord visit).  This measure strictly
decreases along every recursive call. -/
def nuMeasure (b : GameBoard) (p : Nat × Nat) : Nat :=
  unopenedCount b + (if (b.cells p).is_open then 1 else 0)

theorem openFuel_no_fuelOut_aux : ∀ f : Nat,
    (∀ b p, p ∈ b.board_cells → nuMeasure b p < f →
      (openFuel f b p).1 ≠ PyResult.fuelOut) ∧
    (∀ bpre b L, Evolves bpre b →
      (∀ q ∈ L, q ∈ bpre.board_cells ∧ (bpre.cells q).is_open = false) →
      unopenedCount bpre < f → (openList (openFuel f) b L).1 ≠ PyResult.fuelOut) := by
  intro f
  induction f with
  | zero => exact ⟨fun b p _ h => absurd h (by omega), fun bpre b L _ _ h => absurd h (by omega)⟩
  | succ f ih =>
    have hmain : ∀ b p, p ∈ b.board_cells → nuMeasure b p < f + 1 →
        (openFuel (f + 1) b p).1 ≠ PyResult.fuelOut := by
      intro b p hp hnu
      rw [openFuel]
      split
      · simp
      · split
        · split
          · simp
          · split
            · rcases hL : openList (openFuel f) b (b.get_neighbors_unmarked p) with ⟨r, b1⟩
              have hr : r ≠ PyResult.fuelOut := by
                have hopen : (b.cells p).is_open = true := by assumption
                have hb : unopenedCount b < f := by
                  have : nuMeasure b p = unopenedCount b + 1 := by
                    simp [nuMeasure, hopen]
                  omega
                have := ih.2 b b (b.get_neighbors_unmarked p) (Evolves.refl b)
                  (fun q hq => ?_) hb
                · rw [hL] at this; exact fun hcon => this (by simp [hcon])
                · constructor
                  · exact neighborsOf_subset_board (List.mem_filter.mp hq).1
                  · have := (List.mem_filter.mp hq).2
                    simp only [Bool.and_eq_true, Bool.not_eq_true'] at this
                    exact this.2
              cases r <;> simp_all
            · simp
        · simp only [GameCell.openCell]
          have hopen : (b.cells p).is_open = false := by
            rename_i h1 h2
            simpa using h2
          split
          · simp
          · split
            · rcases hL : openList (openFuel f)
                (b.setCell p { b.cells p with is_open := true })
                (GameBoard.get_neighbors_unmarked
                  (b.setCell p { b.cells p with is_open := true }) p) with ⟨r, b2⟩
              have hlt : unopenedCount (b.setCell p { b.cells p with is_open := true }) < f := by
                have hstep := unopenedCount_lt_of_newly_open (evolves_setCell_open b p)
                  hp hopen (by simp [setCell_cells])
                have : nuMeasure b p = unopenedCount b := by simp [nuMeasure, hopen]
                omega
              have hr : r ≠ PyResult.fuelOut := by
                have := ih.2 (b.setCell p { b.cells p with is_open := true })
                  (b.setCell p { b.cells p with is_open := true })
                  (GameBoard.get_neighbors_unmarked
                    (b.setCell p { b.cells p with is_open := true }) p)
                  (Evolves.refl _) (fun q hq => ?_) hlt
                · rw [hL] at this; exact fun hcon => this (by simp [hcon])
                · constructor
                  · exact neighborsOf_subset_board (List.mem_filter.mp hq).1
                  · have := (List.mem_filter.mp hq).2
                    simp only [Bool.and_eq_true, Bool.not_eq_true'] at this
                    exact this.2
              cases r <;> simp_all
            · simp
    refine ⟨hmain, ?_⟩
    intro bpre b L hev hels hlt
    induction L generalizing b with
    | nil => simp [openList]
    | cons q rest ihL =>
      show (match openFuel (f + 1) b q with
        | (PyResult.ret _, b1) => openList (openFuel (f + 1)) b1 rest
        | (r, b1) => (r, b1)).1 ≠ PyResult.fuelOut
      rcases hg : openFuel (f + 1) b q with ⟨r, b1⟩
      have hev1 : Evolves b b1 := by
        have h := evolves_openFuel (f + 1) b q
        rw [hg] at h
        exact h
      have hrne : r ≠ PyResult.fuelOut := by
        have hq := hels q (List.mem_cons_self q rest)
        have hqb : q ∈ b.board_cells := by rw [hev.board_cells_eq]; exact hq.1
        have hnu : nuMeasure b q < f + 1 := by
          by_cases hqo : (b.cells q).is_open = true
          · have := unopenedCount_lt_of_newly_open hev hq.1 hq.2 hqo
            simp only [nuMeasure, hqo, if_pos]
            omega
          · have := unopenedCount_le_of_evolves hev
            simp only [Bool.not_eq_true] at hqo
            simp only [nuMeasure, hqo]
            simp only [Bool.false_eq_true, if_false]
            omega
        have := hmain b q hqb hnu
        rw [hg] at this
        exact fun hcon => this (by simp [hcon])
      cases r with
      | ret v =>
        exact ihL b1 (hev.trans hev1) (fun x hx => hels x (List.mem_cons_of_mem q hx))
      | exn => simp
      | fuelOut => exact absurd rfl hrne

/-- With the fuel used by `openCoord` (cell count plus one), the recursion
always completes: `fuelOut` is unreachable for a valid target coordinate. -/
theorem openCoord_no_fuelOut (b : GameBoard) (p : Nat × Nat) (hp : p ∈ b.board_cells) :
    (b.openCoord p).1 ≠ PyResult.fuelOut := by
  refine (openFuel_no_fuelOut_aux _).1 b p hp ?_
  by_cases hopen : (b.cells p).is_open = true
  · have := unopenedCount_lt_total_of_open hp hopen
    simp only [nuMeasure, hopen, if_pos]
    omega
  · simp only [Bool.not_eq_true] at hopen
    have := unopenedCount_le_total b
    simp only [nuMeasure, hopen]
    simp only [Bool.false_eq_true, if_false]
    omega

/-! ### Shape of `open` results -/

theorem openList_nil (g : GameBoard → Nat × Nat → PyResult × GameBoard) (b : GameBoard) :
    openList g b [] = (PyResult.ret true, b) := rfl

theorem openList_cons (g : GameBoard → Nat × Nat → PyResult × GameBoard) (b : GameBoard)
    (q : Nat × Nat) (rest : List (Nat × Nat)) :
    openList g b (q :: rest) =
      match g b q with
      | (PyResult.ret _, b1) => openList g b1 rest
      | (r, b1) => (r, b1) := rfl

/-- A normally terminating loop always reports `True` (the loop body discards
the values returned by the recursive calls). -/
theorem openList_ret_true (g : GameBoard → Nat × Nat → PyResult × GameBoard) :
    ∀ (L : List (Nat × Nat)) (b : GameBoard) (r : Bool) (b' : GameBoard),
    openList g b L = (PyResult.ret r, b') → r = true := by
  intro L
  induction L with
  | nil =>
    intro b r b' h
    rw [openList_nil] at h
    injection h with h1 h2
    injection h1 with h3
    exact h3.symm
  | cons q rest ih =>
    intro b r b' h
    rw [openList_cons] at h
    rcases hg : g b q with ⟨r1, b1⟩
    rw [hg] at h
    cases r1 with
    | ret v => exact ih b1 r b' h
    | exn => cases h
    | fuelOut => cases h

/-- The value `False` is returned exactly when the target cell itself is an
unflagged, unopened mine: flagged and already-open targets return `True` (or
raise), and the recursive cascade never changes the return value because the
loops discard the recursive results. -/
theorem openFuel_ret_false_iff (f : Nat) (b : GameBoard) (p : Nat × Nat) :
    (openFuel f b p).1 = PyResult.ret false ↔
      (0 < f ∧ (b.cells p).is_flagged = false ∧ (b.cells p).is_open = false ∧
        (b.cells p).mine = true) := by
  cases f with
  | zero => simp [openFuel]
  | succ f =>
    rw [openFuel]
    by_cases hfl : (b.cells p).is_flagged = true
    · simp [hfl]
    · simp only [Bool.not_eq_true] at hfl
      rw [if_neg (by simp [hfl])]
      by_cases hop : (b.cells p).is_open = true
      · rw [if_pos hop]
        rcases hpi : pyInt (b.cells p).name with _ | n
        · simp [hop]
        · simp only []
          by_cases hn : n = (b.get_neighbors_flagged p).length
          · rw [if_pos hn]
            rcases hL : openList (openFuel f) b (b.get_neighbors_unmarked p) with ⟨r, b1⟩
            cases r <;> simp [hop]
          · rw [if_neg hn]
            simp [hop]
      · rw [if_neg hop]
        simp only [Bool.not_eq_true] at hop
        simp only [GameCell.openCell]
        by_cases hm : (b.cells p).mine = true
        · rw [if_pos hm]
          simp [hfl, hop, hm]
        · rw [if_neg hm]
          simp only [Bool.not_eq_true] at hm
          by_cases hs : ((b.setCell p { b.cells p with is_open := true }).cells p).is_safe = true
          · rw [if_pos hs]
            rcases hL : openList (openFuel f)
              (b.setCell p { b.cells p with is_open := true })
              (GameBoard.get_neighbors_unmarked
                (b.setCell p { b.cells p with is_open := true }) p) with ⟨r, b2⟩
            cases r <;> simp [hm]
          · rw [if_neg hs]
            simp [hm]

/-- After a call on an unflagged target with positive fuel, the target is open
(it was either open already or has just been opened), whatever the outcome. -/
theorem openFuel_opens_target (f : Nat) (b : GameBoard) (p : Nat × Nat) (hf : 0 < f)
    (hfl : (b.cells p).is_flagged = false) :
    ((openFuel f b p).2.cells p).is_open = true := by
  cases f with
  | zero => omega
  | succ f =>
    rw [openFuel]
    rw [if_neg (by simp [hfl])]
    by_cases hop : (b.cells p).is_open = true
    · rw [if_pos hop]
      rcases hpi : pyInt (b.cells p).name with _ | n
      · exact hop
      · simp only []
        by_cases hn : n = (b.get_neighbors_flagged p).length
        · rw [if_pos hn]
          rcases hL : openList (openFuel f) b (b.get_neighbors_unmarked p) with ⟨r, b1⟩
          have hev : Evolves b b1 := by
            have h := evolves_openList (openFuel f) (fun b q => evolves_openFuel f b q) b
              (b.get_neighbors_unmarked p)
            rwa [hL] at h
          cases r <;> exact hev.open_mono p hop
        · rw [if_neg hn]
          exact hop
    · rw [if_neg hop]
      simp only [GameCell.openCell]
      have hb1 : ((b.setCell p { b.cells p with is_open := true }).cells p).is_open = true := by
        simp [setCell_cells]
      by_cases hm : (b.cells p).mine = true
      · rw [if_pos hm]
        exact hb1
      · rw [if_neg hm]
        by_cases hs : ((b.setCell p { b.cells p with is_open := true }).cells p).is_safe = true
        · rw [if_pos hs]
          rcases hL : openList (openFuel f)
            (b.setCell p { b.cells p with is_open := true })
            (GameBoard.get_neighbors_unmarked
              (b.setCell p { b.cells p with is_open := true }) p) with ⟨r, b2⟩
          have hev : Evolves (b.setCell p { b.cells p with is_open := true }) b2 := by
            have h := evolves_openList (openFuel f) (fun b q => evolves_openFuel f b q)
              (b.setCell p { b.cells p with is_open := true })
              (GameBoard.get_neighbors_unmarked
                (b.setCell p { b.cells p with is_open := true }) p)
            rwa [hL] at h
          cases r <;> exact hev.open_mono p hb1
        · rw [if_neg hs]
          exact hb1

/-- A loop over unflagged coordinates that terminates normally leaves every one
of its coordinates open. -/
theorem openList_opens_all (f : Nat) (hf : 0 < f) :
    ∀ (L : List (Nat × Nat)) (b : GameBoard),
    (∀ q ∈ L, (b.cells q).is_flagged = false) →
    ∀ (r : Bool) (b' : GameBoard), openList (openFuel f) b L = (PyResult.ret r, b') →
    ∀ q ∈ L, (b'.cells q).is_open = true := by
  intro L
  induction L with
  | nil =>
    intro b _ r b' _ q hq
    cases hq
  | cons q rest ih =>
    intro b hfl r b' hrun x hx
    rw [openList_cons] at hrun
    rcases hg : openFuel f b q with ⟨r1, b1⟩
    rw [hg] at hrun
    have hev1 : Evolves b b1 := by
      have h := evolves_openFuel f b q
      rwa [hg] at h
    cases r1 with
    | ret v =>
      have hrun2 : openList (openFuel f) b1 rest = (PyResult.ret r, b') := hrun
      have hev2 : Evolves b1 b' := by
        have h := evolves_openList (openFuel f) (fun b q => evolves_openFuel f b q) b1 rest
        rwa [hrun2] at h
      rcases List.mem_cons.mp hx with rfl | hxr
      · have hq1 : (b1.cells x).is_open = true := by
          have h := openFuel_opens_target f b x hf (hfl x (List.mem_cons_self x rest))
          rwa [hg] at h
        exact hev2.open_mono x hq1
      · refine ih b1 (fun y hy => ?_) r b' hrun x hxr
        rw [hev1.flagged y]
        exact hfl y (List.mem_cons_of_mem q hy)
    | exn => cases hrun
    | fuelOut => cases hrun

/-! ### Branch equations of `open` -/

theorem openFuel_flagged (f : Nat) (b : GameBoard) (p : Nat × Nat)
    (hfl : (b.cells p).is_flagged = true) :
    openFuel (f + 1) b p = (PyResult.ret true, b) := by
  rw [openFuel, if_pos hfl]

theorem openFuel_open_exn (f : Nat) (b : GameBoard) (p : Nat × Nat)
    (hfl : (b.cells p).is_flagged = false) (hop : (b.cells p).is_open = true)
    (hpi : pyInt (b.cells p).name = none) :
    openFuel (f + 1) b p = (PyResult.exn, b) := by
  rw [openFuel, if_neg (by simp [hfl]), if_pos hop]
  rcases hpi2 : pyInt (b.cells p).name with _ | n
  · rfl
  · rw [hpi2] at hpi
    cases hpi

theorem openFuel_chord_eq (f : Nat) (b : GameBoard) (p : Nat × Nat) (N : Nat)
    (hfl : (b.cells p).is_flagged = false) (hop : (b.cells p).is_open = true)
    (hname : pyInt (b.cells p).name = some N)
    (heq : N = (b.get_neighbors_flagged p).length) :
    openFuel (f + 1) b p =
      match openList (openFuel f) b (b.get_neighbors_unmarked p) with
      | (PyResult.ret _, b1) => (PyResult.ret true, b1)
      | (r, b1) => (r, b1) := by
  rw [openFuel, if_neg (by simp [hfl]), if_pos hop]
  rcases hpi2 : pyInt (b.cells p).name with _ | n
  · rw [hpi2] at hname
    cases hname
  · rw [hpi2] at hname
    injection hname with hn
    subst hn
    exact if_pos heq

theorem openFuel_chord_ne (f : Nat) (b : GameBoard) (p : Nat × Nat) (N : Nat)
    (hfl : (b.cells p).is_flagged = false) (hop : (b.cells p).is_open = true)
    (hname : pyInt (b.cells p).name = some N)
    (hne : N ≠ (b.get_neighbors_flagged p).length) :
    openFuel (f + 1) b p = (PyResult.ret true, b) := by
  rw [openFuel, if_neg (by simp [hfl]), if_pos hop]
  rcases hpi2 : pyInt (b.cells p).name with _ | n
  · rw [hpi2] at hname
    cases hname
  · rw [hpi2] at hname
    injection hname with hn
    subst hn
    exact if_neg hne

/-! ### Preservation of labels, mine status and dimensions by all operations -/

theorem applyOp_preserves (b : GameBoard) (o : Op) (q : Nat × Nat) :
    ((applyOp b o).cells q).name = (b.cells q).name ∧
      ((applyOp b o).cells q).mine = (b.cells q).mine ∧
      (applyOp b o).r_size = b.r_size ∧ (applyOp b o).c_size = b.c_size := by
  cases o with
  | openOp p =>
    have h := evolves_openFuel (b.r_size * b.c_size + 1) b p
    exact ⟨h.name q, h.mine q, h.1, h.2.1⟩
  | flagOp p =>
    by_cases hq : q = p <;>
      simp [applyOp, GameBoard.flag, setCell_cells, GameCell.toggle, GameBoard.setCell, hq]
  | revealOp =>
    simp [applyOp, GameBoard.reveal]

theorem applyOps_preserves (ops : List Op) : ∀ (b : GameBoard) (q : Nat × Nat),
    ((applyOps b ops).cells q).name = (b.cells q).name ∧
      ((applyOps b ops).cells q).mine = (b.cells q).mine ∧
      (applyOps b ops).r_size = b.r_size ∧ (applyOps b ops).c_size = b.c_size := by
  induction ops with
  | nil => exact fun b q => ⟨rfl, rfl, rfl, rfl⟩
  | cons o rest ih =>
    intro b q
    have h1 := applyOp_preserves b o q
    have h2 := ih (applyOp b o) q
    exact ⟨h2.1.trans h1.1, h2.2.1.trans h1.2.1, h2.2.2.1.trans h1.2.2.1,
      h2.2.2.2.trans h1.2.2.2⟩

/-! ### Arithmetic facts about labels -/

theorem pyInt_toString : ∀ n : Nat, n ≤ 9 → pyInt (toString n) = some n := by decide

theorem toString_eq_zero_iff : ∀ n : Nat, n ≤ 9 → (toString n = "0" ↔ n = 0) := by decide

/-! ### Claim C2 -/

/-- Counterexample to claim C2 as stated: on a 2-by-2 board with mines at
(0,1) and (1,0), after opening (0,0) (label "2") and flagging (0,1) and (1,1),
a second open of (0,0) chords, detonates (opens) the mine at (1,0) during the
call, and still returns True, because the loop discards the recursive results.
So "returns false iff a mine was detonated during that call" fails. -/
theorem claim_C2_counterexample :
    ((applyOps (GameBoard.create 2 2 [(0, 1), (1, 0)])
        [Op.openOp (0, 0), Op.flagOp (0, 1), Op.flagOp (1, 1)]).cells (1, 0)).mine = true ∧
    ((applyOps (GameBoard.create 2 2 [(0, 1), (1, 0)])
        [Op.openOp (0, 0), Op.flagOp (0, 1), Op.flagOp (1, 1)]).cells (1, 0)).is_open = false ∧
    ((applyOps (GameBoard.create 2 2 [(0, 1), (1, 0)])
        [Op.openOp (0, 0), Op.flagOp (0, 1), Op.flagOp (1, 1)]).openCoord (0, 0)).1 =
      PyResult.ret true ∧
    (((applyOps (GameBoard.create 2 2 [(0, 1), (1, 0)])
        [Op.openOp (0, 0), Op.flagOp (0, 1), Op.flagOp (1, 1)]).openCoord (0, 0)).2.cells
      (1, 0)).is_open = true := by
  refine ⟨by decide, by decide, by decide, by decide⟩

/-- Claim C2, amended: `open` returns False exactly when the target cell itself
is an unflagged, unopened mine.  A mine opened during the recursive calls of a
chord does not make the top-level call return False (the for-loop discards the
recursive return values), and a second open of an already-open mine raises
rather than returning False, so False is returned exactly once per mine. -/
theorem claim_C2 : ∀ (b : GameBoard) (p : Nat × Nat),
    (b.openCoord p).1 = PyResult.ret false ↔
      ((b.cells p).is_flagged = false ∧ (b.cells p).is_open = false ∧
        (b.cells p).mine = true) := by
  intro b p
  rw [GameBoard.openCoord, openFuel_ret_false_iff]
  simp only [Nat.succ_pos, true_and]

/-! ### Claim C7 -/

theorem openCoord_flagged (b : GameBoard) (p : Nat × Nat)
    (hfl : (b.cells p).is_flagged = true) : b.openCoord p = (PyResult.ret true, b) :=
  openFuel_flagged (b.r_size * b.c_size) b p hfl

/-- Claim C7: opening a flagged cell is refused: the call returns True and no
cell of the board changes in any way. -/
theorem claim_C7 : ∀ (b : GameBoard) (p : Nat × Nat),
    (b.cells p).is_flagged = true →
    (b.openCoord p).1 = PyResult.ret true ∧
      ∀ q, ((b.openCoord p).2).cells q = b.cells q := by
  intro b p hfl
  rw [openCoord_flagged b p hfl]
  exact ⟨rfl, fun q => rfl⟩

/-- Witness for claim C7 at a concrete input: a 2-by-2 board with the cell
(1,1) flagged. -/
theorem claim_C7_witness :
    ((applyOps (GameBoard.create 2 2 [(0, 0)]) [Op.flagOp (1, 1)]).cells (1, 1)).is_flagged =
      true ∧
    (((applyOps (GameBoard.create 2 2 [(0, 0)]) [Op.flagOp (1, 1)]).openCoord (1, 1)).1 =
        PyResult.ret true ∧
      ∀ q, (((applyOps (GameBoard.create 2 2 [(0, 0)]) [Op.flagOp (1, 1)]).openCoord
        (1, 1)).2).cells q =
        (applyOps (GameBoard.create 2 2 [(0, 0)]) [Op.flagOp (1, 1)]).cells q) :=
  ⟨by decide, claim_C7 (applyOps (GameBoard.create 2 2 [(0, 0)]) [Op.flagOp (1, 1)]) (1, 1)
    (by decide)⟩

/-! ### Claim C10 -/

/-- Counterexample to claim C10 as stated: a cell that is open and a mine but
currently flagged (reachable by flagging it and then calling `reveal`) does not
reach the chord branch: `open` returns True instead of raising. -/
theorem claim_C10_counterexample :
    ((applyOps (GameBoard.create 2 2 [(0, 0)]) [Op.flagOp (0, 0), Op.revealOp]).cells
      (0, 0)).mine = true ∧
    ((applyOps (GameBoard.create 2 2 [(0, 0)]) [Op.flagOp (0, 0), Op.revealOp]).cells
      (0, 0)).is_open = true ∧
    ((applyOps (GameBoard.create 2 2 [(0, 0)]) [Op.flagOp (0, 0), Op.revealOp]).openCoord
      (0, 0)).1 = PyResult.ret true := by
  refine ⟨by decide, by decide, by decide⟩

/-- Claim C10, amended: opening a cell that is already open, not flagged, and
carries the mine marker label "M" reaches the chord branch, whose
`int("M")` conversion raises an uncaught ValueError instead of returning True;
the board state is unchanged by the failed call. -/
theorem claim_C10 : ∀ (b : GameBoard) (p : Nat × Nat),
    (b.cells p).is_flagged = false → (b.cells p).is_open = true →
    (b.cells p).mine = true → (b.cells p).name = "M" →
    b.openCoord p = (PyResult.exn, b) := by
  intro b p hfl hop _ hname
  refine openFuel_open_exn (b.r_size * b.c_size) b p hfl hop ?_
  rw [hname]
  decide

/-- Witness for claim C10 at a concrete input: the mine cell of a revealed
2-by-2 board. -/
theorem claim_C10_witness :
    ((applyOps (GameBoard.create 2 2 [(0, 0)]) [Op.revealOp]).cells (0, 0)).is_flagged =
      false ∧
    ((applyOps (GameBoard.create 2 2 [(0, 0)]) [Op.revealOp]).cells (0, 0)).is_open = true ∧
    ((applyOps (GameBoard.create 2 2 [(0, 0)]) [Op.revealOp]).cells (0, 0)).mine = true ∧
    ((applyOps (GameBoard.create 2 2 [(0, 0)]) [Op.revealOp]).cells (0, 0)).name = "M" ∧
    (applyOps (GameBoard.create 2 2 [(0, 0)]) [Op.revealOp]).openCoord (0, 0) =
      (PyResult.exn, applyOps (GameBoard.create 2 2 [(0, 0)]) [Op.revealOp]) :=
  ⟨by decide, by decide, by decide, by decide,
    claim_C10 (applyOps (GameBoard.create 2 2 [(0, 0)]) [Op.revealOp]) (0, 0)
      (by decide) (by decide) (by decide) (by decide)⟩

/-! ### Claim C3 -/

/-- Counterexample to claim C3 as stated: on a 2-by-2 board with mines at
(0,1) and (1,0), the cell (0,0) is open with numeric label 2 and has exactly
2 flagged neighbours, but it is itself flagged, so a new `open` of (0,0) is
refused by the flag check before the chord branch: the unmarked neighbour
(1,0) is not opened, although the claim says it must be. -/
theorem claim_C3_counterexample :
    ((applyOps (GameBoard.create 2 2 [(0, 1), (1, 0)])
        [Op.openOp (0, 0), Op.flagOp (0, 0), Op.flagOp (0, 1), Op.flagOp (1, 1)]).cells
      (0, 0)).is_open = true ∧
    pyInt ((applyOps (GameBoard.create 2 2 [(0, 1), (1, 0)])
        [Op.openOp (0, 0), Op.flagOp (0, 0), Op.flagOp (0, 1), Op.flagOp (1, 1)]).cells
      (0, 0)).name = some 2 ∧
    ((applyOps (GameBoard.create 2 2 [(0, 1), (1, 0)])
        [Op.openOp (0, 0), Op.flagOp (0, 0), Op.flagOp (0, 1), Op.flagOp (1, 1)]).get_neighbors_flagged
      (0, 0)).length = 2 ∧
    (1, 0) ∈ (applyOps (GameBoard.create 2 2 [(0, 1), (1, 0)])
        [Op.openOp (0, 0), Op.flagOp (0, 0), Op.flagOp (0, 1), Op.flagOp (1, 1)]).get_neighbors_unmarked
      (0, 0) ∧
    ((applyOps (GameBoard.create 2 2 [(0, 1), (1, 0)])
        [Op.openOp (0, 0), Op.flagOp (0, 0), Op.flagOp (0, 1), Op.flagOp (1, 1)]).openCoord
      (0, 0)).1 = PyResult.ret true ∧
    (((applyOps (GameBoard.create 2 2 [(0, 1), (1, 0)])
        [Op.openOp (0, 0), Op.flagOp (0, 0), Op.flagOp (0, 1), Op.flagOp (1, 1)]).openCoord
      (0, 0)).2.cells (1, 0)).is_open = false := by
  refine ⟨by decide, by decide, by decide, by decide, by decide, by decide⟩

/-- Claim C3, amended: for a cell that is already open, **not flagged**, and has
numeric label N, `open` chords: if exactly N neighbours are flagged, the call
either raises (when a recursively revisited neighbour is an open mine) or
returns True having opened every neighbour that was neither open nor flagged;
if the flagged count differs from N, the call returns True and changes
nothing. -/
theorem claim_C3 : ∀ (b : GameBoard) (p : Nat × Nat) (N : Nat),
    p ∈ b.board_cells → (b.cells p).is_open = true → (b.cells p).is_flagged = false →
    pyInt (b.cells p).name = some N →
    ((N = (b.get_neighbors_flagged p).length →
      (((b.openCoord p).1 = PyResult.ret true ∨ (b.openCoord p).1 = PyResult.exn) ∧
        ((b.openCoord p).1 = PyResult.ret true →
          ∀ q ∈ b.get_neighbors_unmarked p,
            (((b.openCoord p).2).cells q).is_open = true))) ∧
     (N ≠ (b.get_neighbors_flagged p).length →
      b.openCoord p = (PyResult.ret true, b))) := by
  intro b p N hp hop hfl hname
  have hfpos : 0 < b.r_size * b.c_size := by
    have h := mem_boardCoords.mp hp
    have h1 : 0 < b.r_size := by omega
    have h2 : 0 < b.c_size := by omega
    exact Nat.mul_pos h1 h2
  constructor
  · intro heq
    have hch : b.openCoord p =
        match openList (openFuel (b.r_size * b.c_size)) b (b.get_neighbors_unmarked p) with
        | (PyResult.ret _, b1) => (PyResult.ret true, b1)
        | (r, b1) => (r, b1) :=
      openFuel_chord_eq (b.r_size * b.c_size) b p N hfl hop hname heq
    rcases hL : openList (openFuel (b.r_size * b.c_size)) b (b.get_neighbors_unmarked p)
      with ⟨r, b1⟩
    rw [hL] at hch
    cases r with
    | ret v =>
      refine ⟨Or.inl (by rw [hch]), fun _ => ?_⟩
      intro q hq
      rw [hch]
      exact openList_opens_all (b.r_size * b.c_size) hfpos (b.get_neighbors_unmarked p) b
        (fun y hy => by
          have h := (List.mem_filter.mp hy).2
          simp only [Bool.and_eq_true, Bool.not_eq_true'] at h
          exact h.1)
        v b1 hL q hq
    | exn =>
      refine ⟨Or.inr (by rw [hch]), fun habs => ?_⟩
      rw [hch] at habs
      cases habs
    | fuelOut =>
      have habs := openCoord_no_fuelOut b p hp
      rw [hch] at habs
      cases habs rfl
  · intro hne
    exact openFuel_chord_ne (b.r_size * b.c_size) b p N hfl hop hname hne

/-- Witness for claim C3 at a concrete input: the chord at (0,0) on a 2-by-2
board with two mines, both flagged, which opens the remaining cell (1,1). -/
theorem claim_C3_witness :
    (0, 0) ∈ (applyOps (GameBoard.create 2 2 [(0, 1), (1, 0)])
        [Op.openOp (0, 0), Op.flagOp (0, 1), Op.flagOp (1, 0)]).board_cells ∧
    ((applyOps (GameBoard.create 2 2 [(0, 1), (1, 0)])
        [Op.openOp (0, 0), Op.flagOp (0, 1), Op.flagOp (1, 0)]).cells (0, 0)).is_open = true ∧
    ((applyOps (GameBoard.create 2 2 [(0, 1), (1, 0)])
        [Op.openOp (0, 0), Op.flagOp (0, 1), Op.flagOp (1, 0)]).cells (0, 0)).is_flagged =
      false ∧
    pyInt ((applyOps (GameBoard.create 2 2 [(0, 1), (1, 0)])
        [Op.openOp (0, 0), Op.flagOp (0, 1), Op.flagOp (1, 0)]).cells (0, 0)).name =
      some 2 ∧
    ((2 = ((applyOps (GameBoard.create 2 2 [(0, 1), (1, 0)])
        [Op.openOp (0, 0), Op.flagOp (0, 1), Op.flagOp (1, 0)]).get_neighbors_flagged
          (0, 0)).length →
      ((((applyOps (GameBoard.create 2 2 [(0, 1), (1, 0)])
        [Op.openOp (0, 0), Op.flagOp (0, 1), Op.flagOp (1, 0)]).openCoord (0, 0)).1 =
          PyResult.ret true ∨
        (((applyOps (GameBoard.create 2 2 [(0, 1), (1, 0)])
        [Op.openOp (0, 0), Op.flagOp (0, 1), Op.flagOp (1, 0)]).openCoord (0, 0)).1 =
          PyResult.exn)) ∧
        ((((applyOps (GameBoard.create 2 2 [(0, 1), (1, 0)])
        [Op.openOp (0, 0), Op.flagOp (0, 1), Op.flagOp (1, 0)]).openCoord (0, 0)).1 =
          PyResult.ret true) →
          ∀ q ∈ (applyOps (GameBoard.create 2 2 [(0, 1), (1, 0)])
            [Op.openOp (0, 0), Op.flagOp (0, 1), Op.flagOp (1, 0)]).get_neighbors_unmarked
              (0, 0),
            ((((applyOps (GameBoard.create 2 2 [(0, 1), (1, 0)])
              [Op.openOp (0, 0), Op.flagOp (0, 1), Op.flagOp (1, 0)]).openCoord
                (0, 0)).2).cells q).is_open = true))) ∧
     (2 ≠ ((applyOps (GameBoard.create 2 2 [(0, 1), (1, 0)])
        [Op.openOp (0, 0), Op.flagOp (0, 1), Op.flagOp (1, 0)]).get_neighbors_flagged
          (0, 0)).length →
      (applyOps (GameBoard.create 2 2 [(0, 1), (1, 0)])
        [Op.openOp (0, 0), Op.flagOp (0, 1), Op.flagOp (1, 0)]).openCoord (0, 0) =
        (PyResult.ret true,
          applyOps (GameBoard.create 2 2 [(0, 1), (1, 0)])
            [Op.openOp (0, 0), Op.flagOp (0, 1), Op.flagOp (1, 0)]))) :=
  ⟨by decide, by decide, by decide, by decide,
    claim_C3 (applyOps (GameBoard.create 2 2 [(0, 1), (1, 0)])
        [Op.openOp (0, 0), Op.flagOp (0, 1), Op.flagOp (1, 0)]) (0, 0) 2
      (by decide) (by decide) (by decide) (by decide)⟩

/-! ### Claim C6 -/

/-- Counterexample to claim C6 as stated: the claim asserts that each recursive
call only visits cells that are not yet open (and that an opened cell is never
revisited for expansion).  On a 3-by-3 board with one mine at (2,2), after
opening (1,1) (label "1") and flagging (2,1), a chord on (1,1) raises an
uncaught ValueError.  The target's label parses as 1, so the `int("M")` that
raises can only come from a recursive call that reached the chord branch on an
open cell whose label is "M" — the mine (2,2), which was closed before the
call, was opened during it, and was then revisited by a later recursive call
of the same cascade. -/
theorem claim_C6_counterexample :
    ((applyOps (GameBoard.create 3 3 [(2, 2)]) [Op.openOp (1, 1), Op.flagOp (2, 1)]).cells
      (1, 1)).is_open = true ∧
    pyInt ((applyOps (GameBoard.create 3 3 [(2, 2)])
        [Op.openOp (1, 1), Op.flagOp (2, 1)]).cells (1, 1)).name = some 1 ∧
    ((applyOps (GameBoard.create 3 3 [(2, 2)]) [Op.openOp (1, 1), Op.flagOp (2, 1)]).cells
      (2, 2)).mine = true ∧
    ((applyOps (GameBoard.create 3 3 [(2, 2)]) [Op.openOp (1, 1), Op.flagOp (2, 1)]).cells
      (2, 2)).is_open = false ∧
    ((applyOps (GameBoard.create 3 3 [(2, 2)])
        [Op.openOp (1, 1), Op.flagOp (2, 1)]).openCoord (1, 1)).1 = PyResult.exn ∧
    (((applyOps (GameBoard.create 3 3 [(2, 2)])
        [Op.openOp (1, 1), Op.flagOp (2, 1)]).openCoord (1, 1)).2.cells (2, 2)).is_open =
      true := by
  refine ⟨by decide, by decide, by decide, by decide, by decide, by decide⟩

/-- Claim C6, amended: `open` always terminates, and the recursion depth is
bounded by the total cell count (fuel `r_size * c_size + 1` never runs out,
because the measure "number of unopened cells, plus one if the target is
open" strictly decreases along every recursive call); opening is monotonic
(an opened cell is never un-opened).  However, the chord branch may
recursively visit — and re-expand — already-open cells, so the spec's
"each recursive call only visits cells that are not yet open" does not hold
literally. -/
theorem claim_C6 : ∀ (b : GameBoard) (p : Nat × Nat), p ∈ b.board_cells →
    (openFuel (b.r_size * b.c_size + 1) b p).1 ≠ PyResult.fuelOut ∧
      ∀ q, (b.cells q).is_open = true →
        (((openFuel (b.r_size * b.c_size + 1) b p).2).cells q).is_open = true :=
  fun b p hp =>
    ⟨openCoord_no_fuelOut b p hp,
      fun q hq => (evolves_openFuel (b.r_size * b.c_size + 1) b p).open_mono q hq⟩

/-- Witness for claim C6 at a concrete input. -/
theorem claim_C6_witness :
    (0, 1) ∈ (GameBoard.create 2 2 [(0, 0)]).board_cells ∧
    ((openFuel ((GameBoard.create 2 2 [(0, 0)]).r_size *
        (GameBoard.create 2 2 [(0, 0)]).c_size + 1) (GameBoard.create 2 2 [(0, 0)])
        (0, 1)).1 ≠ PyResult.fuelOut ∧
      ∀ q, ((GameBoard.create 2 2 [(0, 0)]).cells q).is_open = true →
        (((openFuel ((GameBoard.create 2 2 [(0, 0)]).r_size *
          (GameBoard.create 2 2 [(0, 0)]).c_size + 1) (GameBoard.create 2 2 [(0, 0)])
          (0, 1)).2).cells q).is_open = true) :=
  ⟨by decide, claim_C6 (GameBoard.create 2 2 [(0, 0)]) (0, 1) (by decide)⟩

/-! ### Claim C9 -/

/-- Claim C9: construction fails with a dimension error whenever the requested
row or column count lies outside the interval from 2 to the externally
supplied maximum; the mine-count parameter and the randomness are irrelevant
because the dimension checks run first. -/
theorem claim_C9 : ∀ (maxR maxC r c m rnd : Int) (sf : Nat → List (Nat × Nat)),
    (r < 2 ∨ maxR < r ∨ c < 2 ∨ maxC < c) →
    mkGameBoard maxR maxC r c m rnd sf = Except.error InitError.dimension := by
  intro maxR maxC r c m rnd sf h
  by_cases hr : 1 < r ∧ r ≤ maxR
  · have hc : ¬(1 < c ∧ c ≤ maxC) := by omega
    have h1 : set_r_size maxR r = Except.ok r.toNat := by rw [set_r_size, if_pos hr]
    have h2 : set_c_size maxC c = Except.error InitError.dimension := by
      rw [set_c_size, if_neg hc]
    rw [mkGameBoard, h1, h2]
  · have h1 : set_r_size maxR r = Except.error InitError.dimension := by
      rw [set_r_size, if_neg hr]
    rw [mkGameBoard, h1]

/-- Witness for claim C9 at a concrete input: requesting a single row
(rows = 1) fails with a dimension error regardless of the other parameters. -/
theorem claim_C9_witness :
    ((1 : Int) < 2 ∨ (36 : Int) < 1 ∨ (5 : Int) < 2 ∨ (36 : Int) < 5) ∧
    mkGameBoard 36 36 1 5 30 1 (fun _ => []) = Except.error InitError.dimension :=
  ⟨Or.inl (by decide), claim_C9 36 36 1 5 30 1 (fun _ => []) (Or.inl (by decide))⟩

/-! ### Claim C4 -/

theorem length_filter_add_le {α : Type} (l : List α) (p q : α → Bool)
    (hdis : ∀ x ∈ l, ¬(p x = true ∧ q x = true)) :
    (l.filter p).length + (l.filter q).length ≤ l.length := by
  induction l with
  | nil => simp
  | cons x t ih =>
    have hdt : ∀ y ∈ t, ¬(p y = true ∧ q y = true) :=
      fun y hy => hdis y (List.mem_cons_of_mem x hy)
    have hxt := hdis x (List.mem_cons_self x t)
    have iht := ih hdt
    by_cases hp : p x = true <;> by_cases hq : q x = true
    · exact absurd ⟨hp, hq⟩ hxt
    · rw [List.filter_cons_of_pos hp, List.filter_cons_of_neg hq]
      simp only [List.length_cons]
      omega
    · rw [List.filter_cons_of_neg hp, List.filter_cons_of_pos hq]
      simp only [List.length_cons]
      omega
    · rw [List.filter_cons_of_neg hp, List.filter_cons_of_neg hq]
      simp only [List.length_cons]
      omega

theorem length_filter_add_eq_iff {α : Type} (l : List α) (p q : α → Bool)
    (hdis : ∀ x ∈ l, ¬(p x = true ∧ q x = true)) :
    ((l.filter p).length + (l.filter q).length = l.length ↔
      ∀ x ∈ l, p x = true ∨ q x = true) := by
  induction l with
  | nil => simp
  | cons x t ih =>
    have hdt : ∀ y ∈ t, ¬(p y = true ∧ q y = true) :=
      fun y hy => hdis y (List.mem_cons_of_mem x hy)
    have hxt := hdis x (List.mem_cons_self x t)
    have iht := ih hdt
    have hle := length_filter_add_le t p q hdt
    by_cases hp : p x = true <;> by_cases hq : q x = true
    · exact absurd ⟨hp, hq⟩ hxt
    · rw [List.filter_cons_of_pos hp, List.filter_cons_of_neg hq]
      simp only [List.length_cons]
      constructor
      · intro he y hy
        rcases List.mem_cons.mp hy with rfl | hy
        · exact Or.inl hp
        · exact iht.mp (by omega) y hy
      · intro hall
        have := iht.mpr (fun y hy => hall y (List.mem_cons_of_mem x hy))
        omega
    · rw [List.filter_cons_of_neg hp, List.filter_cons_of_pos hq]
      simp only [List.length_cons]
      constructor
      · intro he y hy
        rcases List.mem_cons.mp hy with rfl | hy
        · exact Or.inr hq
        · exact iht.mp (by omega) y hy
      · intro hall
        have := iht.mpr (fun y hy => hall y (List.mem_cons_of_mem x hy))
        omega
    · rw [List.filter_cons_of_neg hp, List.filter_cons_of_neg hq]
      simp only [List.length_cons]
      constructor
      · intro he
        omega
      · intro hall
        rcases hall x (List.mem_cons_self x t) with h | h
        · exact absurd h hp
        · exact absurd h hq

/-- Counterexample to claim C4 as stated: on a 2-by-2 board with a mine at
(0,0), open (0,1), flag the now-open (0,1), then open (1,0) and (1,1).  The
open count is 3 and the flagged count is 1, so `complete()` returns true,
although the mine cell (0,0) is neither open nor flagged: "complete() is true
iff every cell is open or flagged" fails because a cell that is both open and
flagged is counted twice. -/
theorem claim_C4_counterexample :
    (applyOps (GameBoard.create 2 2 [(0, 0)])
        [Op.openOp (0, 1), Op.flagOp (0, 1), Op.openOp (1, 0), Op.openOp (1, 1)]).complete =
      true ∧
    (0, 0) ∈ (applyOps (GameBoard.create 2 2 [(0, 0)])
        [Op.openOp (0, 1), Op.flagOp (0, 1), Op.openOp (1, 0), Op.openOp (1, 1)]).board_cells ∧
    ((applyOps (GameBoard.create 2 2 [(0, 0)])
        [Op.openOp (0, 1), Op.flagOp (0, 1), Op.openOp (1, 0), Op.openOp (1, 1)]).cells
      (0, 0)).is_open = false ∧
    ((applyOps (GameBoard.create 2 2 [(0, 0)])
        [Op.openOp (0, 1), Op.flagOp (0, 1), Op.openOp (1, 0), Op.openOp (1, 1)]).cells
      (0, 0)).is_flagged = false := by
  refine ⟨by decide, by decide, by decide, by decide⟩

/-- Claim C4, amended: `complete()` returns true iff the flagged count plus the
open count equals the total cell count `rows * cols`, where a cell that is both
open and flagged contributes to both counts.  When no cell is both open and
flagged, this is equivalent to every cell being open or flagged; in particular
flagging every cell while opening none makes `complete()` return true. -/
theorem claim_C4 : ∀ (b : GameBoard),
    (b.complete = true ↔
      b.num_flagged + (b.board_cells.filter (fun p => (b.cells p).is_open)).length =
        b.r_size * b.c_size) ∧
    ((∀ p ∈ b.board_cells, ¬((b.cells p).is_open = true ∧ (b.cells p).is_flagged = true)) →
      (b.complete = true ↔
        ∀ p ∈ b.board_cells, (b.cells p).is_open = true ∨ (b.cells p).is_flagged = true)) ∧
    ((∀ p ∈ b.board_cells, (b.cells p).is_flagged = true ∧ (b.cells p).is_open = false) →
      b.complete = true) := by
  intro b
  have hlen : b.board_cells.length = b.r_size * b.c_size :=
    boardCoords_length b.r_size b.c_size
  have hcomp : b.complete = true ↔
      b.num_flagged + (b.board_cells.filter (fun p => (b.cells p).is_open)).length =
        b.r_size * b.c_size := by
    rw [GameBoard.complete, beq_iff_eq, hlen]
    omega
  refine ⟨hcomp, ?_, ?_⟩
  · intro hdis
    rw [hcomp, GameBoard.num_flagged, ← hlen]
    have h := length_filter_add_eq_iff b.board_cells
      (fun p => (b.cells p).is_flagged) (fun p => (b.cells p).is_open)
      (fun x hx hcon => hdis x hx ⟨hcon.2, hcon.1⟩)
    rw [h]
    constructor
    · intro hall p hp
      exact (hall p hp).symm
    · intro hall p hp
      exact (hall p hp).symm
  · intro hall
    rw [hcomp, GameBoard.num_flagged, ← hlen]
    have h1 : b.board_cells.filter (fun p => (b.cells p).is_flagged) = b.board_cells := by
      rw [List.filter_eq_self]
      intro p hp
      exact (hall p hp).1
    have h2 : b.board_cells.filter (fun p => (b.cells p).is_open) = [] := by
      rw [List.filter_eq_nil_iff]
      intro p hp
      simp [(hall p hp).2]
    rw [h1, h2]
    simp

/-- Witness for claim C4 at a concrete input: a 2-by-2 board with every cell
flagged and none open. -/
theorem claim_C4_witness :
    ((applyOps (GameBoard.create 2 2 [(0, 0)])
        [Op.flagOp (0, 0), Op.flagOp (0, 1), Op.flagOp (1, 0), Op.flagOp (1, 1)]).complete =
        true ↔
      (applyOps (GameBoard.create 2 2 [(0, 0)])
        [Op.flagOp (0, 0), Op.flagOp (0, 1), Op.flagOp (1, 0), Op.flagOp (1, 1)]).num_flagged +
        ((applyOps (GameBoard.create 2 2 [(0, 0)])
          [Op.flagOp (0, 0), Op.flagOp (0, 1), Op.flagOp (1, 0), Op.flagOp (1, 1)]).board_cells.filter
          (fun p => (((applyOps (GameBoard.create 2 2 [(0, 0)])
            [Op.flagOp (0, 0), Op.flagOp (0, 1), Op.flagOp (1, 0), Op.flagOp (1, 1)]).cells
              p).is_open))).length =
        (applyOps (GameBoard.create 2 2 [(0, 0)])
          [Op.flagOp (0, 0), Op.flagOp (0, 1), Op.flagOp (1, 0), Op.flagOp (1, 1)]).r_size *
        (applyOps (GameBoard.create 2 2 [(0, 0)])
          [Op.flagOp (0, 0), Op.flagOp (0, 1), Op.flagOp (1, 0), Op.flagOp (1, 1)]).c_size) ∧
    (applyOps (GameBoard.create 2 2 [(0, 0)])
        [Op.flagOp (0, 0), Op.flagOp (0, 1), Op.flagOp (1, 0), Op.flagOp (1, 1)]).complete =
      true :=
  ⟨(claim_C4 (applyOps (GameBoard.create 2 2 [(0, 0)])
      [Op.flagOp (0, 0), Op.flagOp (0, 1), Op.flagOp (1, 0), Op.flagOp (1, 1)])).1,
    (claim_C4 (applyOps (GameBoard.create 2 2 [(0, 0)])
      [Op.flagOp (0, 0), Op.flagOp (0, 1), Op.flagOp (1, 0), Op.flagOp (1, 1)])).2.2
      (by decide)⟩

/-! ### Claim C5 -/

theorem create_cells_mine (rs cs : Nat) (mines : List (Nat × Nat)) (p : Nat × Nat) :
    ((GameBoard.create rs cs mines).cells p).mine = decide (p ∈ mines) := by
  by_cases h : p ∈ mines <;> simp [GameBoard.create, h]

/-- Claim C5: on a constructed board every mine cell carries the mine marker
"M" and every non-mine cell carries as its label the count of mine cells among
its in-bounds Moore neighbours (at most one step per axis, clipped to the
bounds, excluding the cell itself); no operation sequence ever changes a
cell's label or mine status, so the labels are never recomputed. -/
theorem claim_C5 : ∀ (rs cs : Nat) (mines : List (Nat × Nat)) (ops : List Op)
    (p q : Nat × Nat),
    (((applyOps (GameBoard.create rs cs mines) ops).cells p).name =
        ((GameBoard.create rs cs mines).cells p).name ∧
      ((applyOps (GameBoard.create rs cs mines) ops).cells p).mine =
        ((GameBoard.create rs cs mines).cells p).mine) ∧
    (((GameBoard.create rs cs mines).cells p).mine = true →
      ((GameBoard.create rs cs mines).cells p).name = "M") ∧
    (((GameBoard.create rs cs mines).cells p).mine = false →
      ((GameBoard.create rs cs mines).cells p).name =
        toString ((neighborsOf rs cs p).filter
          (fun x => ((GameBoard.create rs cs mines).cells x).mine)).length) ∧
    (q ∈ neighborsOf rs cs p ↔
      ((q.1 ≠ p.1 ∨ q.2 ≠ p.2) ∧ q.1 < rs ∧ q.2 < cs ∧
        q.1 ≤ p.1 + 1 ∧ p.1 ≤ q.1 + 1 ∧ q.2 ≤ p.2 + 1 ∧ p.2 ≤ q.2 + 1)) := by
  intro rs cs mines ops p q
  refine ⟨⟨(applyOps_preserves ops (GameBoard.create rs cs mines) p).1,
    (applyOps_preserves ops (GameBoard.create rs cs mines) p).2.1⟩, ?_, ?_, mem_neighborsOf⟩
  · intro hm
    by_cases h : p ∈ mines
    · simp [GameBoard.create, h]
    · rw [create_cells_mine] at hm
      simp [h] at hm
  · intro hm
    by_cases h : p ∈ mines
    · rw [create_cells_mine] at hm
      simp [h] at hm
    · have hfe : (neighborsOf rs cs p).filter
          (fun x => ((GameBoard.create rs cs mines).cells x).mine) =
          (neighborsOf rs cs p).filter (fun x => decide (x ∈ mines)) :=
        List.filter_congr (fun x _ => by rw [create_cells_mine])
      rw [hfe]
      simp [GameBoard.create, h]

/-- Witness for claim C5 at concrete inputs: the mine (0,0) carries "M" and its
non-mine neighbour (0,1) carries the label "1" computed from its neighbour
list. -/
theorem claim_C5_witness :
    (((GameBoard.create 2 2 [(0, 0)]).cells (0, 0)).mine = true →
      ((GameBoard.create 2 2 [(0, 0)]).cells (0, 0)).name = "M") ∧
    (((GameBoard.create 2 2 [(0, 0)]).cells (0, 1)).mine = false →
      ((GameBoard.create 2 2 [(0, 0)]).cells (0, 1)).name =
        toString ((neighborsOf 2 2 (0, 1)).filter
          (fun x => ((GameBoard.create 2 2 [(0, 0)]).cells x).mine)).length) ∧
    ((GameBoard.create 2 2 [(0, 0)]).cells (0, 0)).name = "M" ∧
    ((GameBoard.create 2 2 [(0, 0)]).cells (0, 1)).name = "1" :=
  ⟨(claim_C5 2 2 [(0, 0)] [] (0, 0) (0, 0)).2.1,
    (claim_C5 2 2 [(0, 0)] [] (0, 1) (0, 0)).2.2.1,
    (claim_C5 2 2 [(0, 0)] [] (0, 0) (0, 0)).2.1 (by decide), by decide⟩

/-! ### Claim C8 -/

theorem boardCoords_nodup (rs cs : Nat) : (boardCoords rs cs).Nodup := by
  rw [boardCoords, List.nodup_flatMap]
  constructor
  · intro r _
    refine (List.nodup_range cs).map ?_
    intro a b h
    injection h with h1 h2
  · have hnd := List.nodup_range rs
    refine List.Pairwise.imp ?_ hnd
    intro a b hab x hxa hxb
    obtain ⟨ca, _, hxa'⟩ := List.mem_map.mp hxa
    obtain ⟨cb, _, hxb'⟩ := List.mem_map.mp hxb
    rw [← hxa'] at hxb'
    injection hxb' with h1 h2
    exact hab h1.symm

/-- Claim C8: resolution and validation of the mine count, and the size of the
constructed board.  First conjunct: a non-positive requested count is replaced
by the random draw, which ranges over 1 to rows*cols - 1.  Second conjunct:
with valid dimensions, a count exceeding rows*cols - 1 fails with a mine-count
error (e.g. rows = 5, cols = 5, 30 mines).  Third conjunct: creating a board
from a duplicate-free sample of board coordinates yields exactly rows*cols
cells of which exactly the sampled ones are mines. -/
theorem claim_C8 :
    (∀ (rs cs : Nat) (m rnd : Int), m < 1 → 1 ≤ rnd → rnd ≤ (rs : Int) * (cs : Int) - 1 →
      set_mines_left rs cs m rnd = Except.ok rnd.toNat) ∧
    (∀ (maxR maxC r c m rnd : Int) (sf : Nat → List (Nat × Nat)),
      1 < r → r ≤ maxR → 1 < c → c ≤ maxC → r * c - 1 < m →
      mkGameBoard maxR maxC r c m rnd sf = Except.error InitError.mineCount) ∧
    (∀ (rs cs : Nat) (sample : List (Nat × Nat)), sample.Nodup →
      (∀ x ∈ sample, x ∈ boardCoords rs cs) →
      ((GameBoard.create rs cs sample).board_cells.length = rs * cs ∧
        ((GameBoard.create rs cs sample).board_cells.filter
          (fun p => ((GameBoard.create rs cs sample).cells p).mine)).length =
          sample.length)) := by
  refine ⟨?_, ?_, ?_⟩
  · intro rs cs m rnd hm h1 h2
    rw [set_mines_left]
    simp only [if_pos hm]
    rw [if_neg (by omega)]
  · intro maxR maxC r c m rnd sf hr1 hr2 hc1 hc2 hm
    have h1 : set_r_size maxR r = Except.ok r.toNat := by
      rw [set_r_size, if_pos ⟨hr1, hr2⟩]
    have h2 : set_c_size maxC c = Except.ok c.toNat := by
      rw [set_c_size, if_pos ⟨hc1, hc2⟩]
    have h4 : (2 : Int) * 2 ≤ r * c :=
      mul_le_mul (by omega) (by omega) (by norm_num) (by omega)
    have h3 : set_mines_left r.toNat c.toNat m rnd = Except.error InitError.mineCount := by
      have hrc : ((r.toNat : Int)) * ((c.toNat : Int)) = r * c := by
        have e1 : ((r.toNat : Int)) = r := by omega
        have e2 : ((c.toNat : Int)) = c := by omega
        rw [e1, e2]
      simp only [set_mines_left]
      rw [if_neg (show ¬ m < 1 by omega), hrc, if_pos (by omega)]
    rw [mkGameBoard, h1, h2]
    show (match set_mines_left r.toNat c.toNat m rnd with
      | Except.error e => Except.error e
      | Except.ok nm => Except.ok (GameBoard.create r.toNat c.toNat (sf nm))) =
      Except.error InitError.mineCount
    rw [h3]
  · intro rs cs sample hnd hsub
    constructor
    · exact boardCoords_length rs cs
    · have hfe : (GameBoard.create rs cs sample).board_cells.filter
          (fun p => ((GameBoard.create rs cs sample).cells p).mine) =
          (boardCoords rs cs).filter (fun p => decide (p ∈ sample)) :=
        List.filter_congr (fun x _ => by rw [create_cells_mine])
      rw [hfe]
      have hperm : (boardCoords rs cs).filter (fun p => decide (p ∈ sample)) |>.Perm sample := by
        refine (List.perm_ext_iff_of_nodup ((boardCoords_nodup rs cs).filter _) hnd).mpr ?_
        intro a
        simp only [List.mem_filter, decide_eq_true_eq]
        constructor
        · intro h
          exact h.2
        · intro h
          exact ⟨hsub a h, h⟩
      exact hperm.length_eq

/-- Witness for claim C8 at concrete inputs: a random draw of 7 resolves a
requested count of -1 on a 5-by-5 board; 30 mines on a 5-by-5 board fail with
a mine-count error; a 2-by-2 board created from the one-element sample
[(0,0)] has 4 cells and exactly 1 mine. -/
theorem claim_C8_witness :
    set_mines_left 5 5 (-1) 7 = Except.ok (7 : Int).toNat ∧
    mkGameBoard 36 36 5 5 30 1 (fun _ => []) = Except.error InitError.mineCount ∧
    ((GameBoard.create 2 2 [(0, 0)]).board_cells.length = 2 * 2 ∧
      ((GameBoard.create 2 2 [(0, 0)]).board_cells.filter
        (fun p => ((GameBoard.create 2 2 [(0, 0)]).cells p).mine)).length =
        [((0 : Nat), (0 : Nat))].length) :=
  ⟨claim_C8.1 5 5 (-1) 7 (by decide) (by decide) (by decide),
    claim_C8.2.1 36 36 5 5 30 1 (fun _ => []) (by decide) (by decide) (by decide)
      (by decide) (by decide),
    claim_C8.2.2 2 2 [(0, 0)] (by decide) (by decide)⟩

/-! ### Claim C1: the cascading reveal -/

/-- Region described by the spec's words for the cascade: the cells reachable
from the target by repeatedly stepping from a safe (zero-label, non-mine) cell
to any of its neighbours.  For a safe target this is the connected zero-label
region containing it together with its bordering numbered cells. -/
inductive Reach (b : GameBoard) (t : Nat × Nat) : Nat × Nat → Prop where
  | base : Reach b t t
  | step {c q : Nat × Nat} : Reach b t c → (b.cells c).is_safe = true →
      q ∈ b.get_neighbors c → Reach b t q

/-- Correct labelling, as established by `_create_board`: mines carry the mine
marker and non-mines carry their neighbour-mine count. -/
def GoodLabels (b : GameBoard) : Prop :=
  ∀ p ∈ b.board_cells,
    ((b.cells p).mine = true → (b.cells p).name = "M") ∧
    ((b.cells p).mine = false → (b.cells p).name =
      toString ((b.get_neighbors p).filter (fun x => (b.cells x).mine)).length)

/-- A fresh board: no cell is open and no cell is flagged. -/
def Fresh (b : GameBoard) : Prop :=
  ∀ q, (b.cells q).is_open = false ∧ (b.cells q).is_flagged = false

/-- Soundness of the open set with respect to the cascade region: every open
cell lies in the region. -/
def OpenSound (b0 : GameBoard) (t0 : Nat × Nat) (s : GameBoard) : Prop :=
  ∀ q, (s.cells q).is_open = true → Reach b0 t0 q

/-- Every cell opened between states `s` and `s'` that is safe has all its
neighbours open in `s'`. -/
def NewSaturated (b0 s s' : GameBoard) : Prop :=
  ∀ c, (s'.cells c).is_open = true → (s.cells c).is_open = false →
    (b0.cells c).is_safe = true →
    ∀ q ∈ b0.get_neighbors c, (s'.cells q).is_open = true

theorem NewSaturated.of_self (b0 s : GameBoard) : NewSaturated b0 s s :=
  fun c hc hnc _ _ _ => absurd hc (by rw [hnc]; exact Bool.false_ne_true)

theorem NewSaturated.compose {b0 s m s' : GameBoard} (h1 : NewSaturated b0 s m)
    (h2 : NewSaturated b0 m s') (hev : Evolves m s') : NewSaturated b0 s s' := by
  intro c hc hns hsafe q hq
  by_cases hm : (m.cells c).is_open = true
  · exact hev.open_mono q (h1 c hm hns hsafe q hq)
  · exact h2 c hc (by simpa using hm) hsafe q hq

theorem Evolves.safe_eq {b b' : GameBoard} (h : Evolves b b') (q : Nat × Nat) :
    (b'.cells q).is_safe = (b.cells q).is_safe := by
  rw [GameCell.is_safe, GameCell.is_safe, h.name q, h.mine q]

theorem Evolves.get_neighbors_eq {b b' : GameBoard} (h : Evolves b b') (q : Nat × Nat) :
    b'.get_neighbors q = b.get_neighbors q := by
  rw [GameBoard.get_neighbors, GameBoard.get_neighbors, h.1, h.2.1]

theorem is_safe_set_open (c : GameCell) : ({ c with is_open := true } : GameCell).is_safe =
    c.is_safe := rfl

theorem reach_mem {b0 : GameBoard} {t0 q : Nat × Nat} (ht0 : t0 ∈ b0.board_cells)
    (h : Reach b0 t0 q) : q ∈ b0.board_cells := by
  induction h with
  | base => exact ht0
  | step _ _ hq _ => exact neighborsOf_subset_board hq

theorem safe_mine_false {c : GameCell} (h : c.is_safe = true) : c.mine = false := by
  rw [GameCell.is_safe] at h
  simp only [Bool.and_eq_true, Bool.not_eq_true'] at h
  exact h.1

/-- Under correct labels, a non-mine in-bounds cell is safe iff its
neighbour-mine count is zero. -/
theorem safe_iff_count_zero {b0 : GameBoard} (hGL : GoodLabels b0) {q : Nat × Nat}
    (hq : q ∈ b0.board_cells) (hm : (b0.cells q).mine = false) :
    ((b0.cells q).is_safe = true ↔
      ((b0.get_neighbors q).filter (fun x => (b0.cells x).mine)).length = 0) := by
  have hname := (hGL q hq).2 hm
  have hle : ((b0.get_neighbors q).filter (fun x => (b0.cells x).mine)).length ≤ 9 :=
    le_trans (List.length_filter_le _ _) (length_neighborsOf_le _ _ _)
  rw [GameCell.is_safe, hm, hname]
  simp only [Bool.not_false, Bool.true_and, beq_iff_eq]
  exact toString_eq_zero_iff _ hle

theorem reach_not_mine {b0 : GameBoard} {t0 : Nat × Nat} (hGL : GoodLabels b0)
    (ht0 : t0 ∈ b0.board_cells) (hsafe0 : (b0.cells t0).is_safe = true) :
    ∀ {q : Nat × Nat}, Reach b0 t0 q → (b0.cells q).mine = false := by
  intro q h
  induction h with
  | base => exact safe_mine_false hsafe0
  | step hr hsafe hq ih =>
    rename_i c q'
    have hcmem : c ∈ b0.board_cells := reach_mem ht0 hr
    have hcount := (safe_iff_count_zero hGL hcmem (safe_mine_false hsafe)).mp hsafe
    have hnil := List.length_eq_zero.mp hcount
    have := List.filter_eq_nil_iff.mp hnil q' hq
    simpa using this

/-- Under correct labels, the label of an in-bounds non-mine cell parses back
to its neighbour-mine count. -/
theorem pyInt_label {b0 : GameBoard} (hGL : GoodLabels b0) {q : Nat × Nat}
    (hq : q ∈ b0.board_cells) (hm : (b0.cells q).mine = false) :
    pyInt (b0.cells q).name =
      some ((b0.get_neighbors q).filter (fun x => (b0.cells x).mine)).length := by
  rw [(hGL q hq).2 hm]
  exact pyInt_toString _ (le_trans (List.length_filter_le _ _) (length_neighborsOf_le _ _ _))

theorem openFuel_new_mine (f : Nat) (s : GameBoard) (t : Nat × Nat)
    (hfl : (s.cells t).is_flagged = false) (hop : (s.cells t).is_open = false)
    (hm : (s.cells t).mine = true) :
    openFuel (f + 1) s t =
      (PyResult.ret false, s.setCell t { s.cells t with is_open := true }) := by
  rw [openFuel, if_neg (by simp [hfl]), if_neg (by simp [hop])]
  simp only [GameCell.openCell]
  rw [if_pos hm]

theorem openFuel_new_safe (f : Nat) (s : GameBoard) (t : Nat × Nat)
    (hfl : (s.cells t).is_flagged = false) (hop : (s.cells t).is_open = false)
    (hm : (s.cells t).mine = false) (hs : (s.cells t).is_safe = true) :
    openFuel (f + 1) s t =
      match openList (openFuel f) (s.setCell t { s.cells t with is_open := true })
        ((s.setCell t { s.cells t with is_open := true }).get_neighbors_unmarked t) with
      | (PyResult.ret _, b2) => (PyResult.ret true, b2)
      | (r, b2) => (r, b2) := by
  have hcond : ((s.setCell t { s.cells t with is_open := true }).cells t).is_safe = true := by
    rw [setCell_cells, if_pos rfl, is_safe_set_open]
    exact hs
  rw [openFuel, if_neg (by simp [hfl]), if_neg (by simp [hop])]
  simp only [GameCell.openCell]
  rw [if_neg (by simp [hm]), if_pos hcond]

theorem openFuel_new_notsafe (f : Nat) (s : GameBoard) (t : Nat × Nat)
    (hfl : (s.cells t).is_flagged = false) (hop : (s.cells t).is_open = false)
    (hm : (s.cells t).mine = false) (hs : (s.cells t).is_safe = false) :
    openFuel (f + 1) s t =
      (PyResult.ret true, s.setCell t { s.cells t with is_open := true }) := by
  have hcond : ¬ ((s.setCell t { s.cells t with is_open := true }).cells t).is_safe = true := by
    rw [setCell_cells, if_pos rfl, is_safe_set_open, hs]
    exact Bool.false_ne_true
  rw [openFuel, if_neg (by simp [hfl]), if_neg (by simp [hop])]
  simp only [GameCell.openCell]
  rw [if_neg (by simp [hm]), if_neg hcond]

/-- Main correctness of the cascade on a board with no flags and no open cells
outside the reach region: every call on a region cell returns True, evolves
the state, keeps every open cell inside the region, opens its target, and
saturates every newly opened safe cell (all its neighbours end up open). -/
theorem flood_aux (b0 : GameBoard) (t0 : Nat × Nat) (hGL : GoodLabels b0)
    (hFr : Fresh b0) (ht0 : t0 ∈ b0.board_cells)
    (hsafe0 : (b0.cells t0).is_safe = true) :
    ∀ f : Nat,
    (∀ s t, Evolves b0 s → OpenSound b0 t0 s → Reach b0 t0 t →
      (openFuel f s t).1 ≠ PyResult.fuelOut →
      ∃ b', openFuel f s t = (PyResult.ret true, b') ∧ Evolves s b' ∧
        OpenSound b0 t0 b' ∧ (b'.cells t).is_open = true ∧ NewSaturated b0 s b') ∧
    (∀ s L, Evolves b0 s → OpenSound b0 t0 s → (∀ q ∈ L, Reach b0 t0 q) →
      (openList (openFuel f) s L).1 ≠ PyResult.fuelOut →
      ∃ b', openList (openFuel f) s L = (PyResult.ret true, b') ∧ Evolves s b' ∧
        OpenSound b0 t0 b' ∧ (∀ q ∈ L, (b'.cells q).is_open = true) ∧
        NewSaturated b0 s b') := by
  intro f
  induction f with
  | zero =>
    constructor
    · intro s t _ _ _ hnfo
      exact absurd rfl hnfo
    · intro s L hev hsound hall hnfo
      cases L with
      | nil => exact ⟨s, rfl, Evolves.refl s, hsound, by simp, NewSaturated.of_self b0 s⟩
      | cons q rest => exact absurd rfl hnfo
  | succ f ih =>
    have hmain : ∀ s t, Evolves b0 s → OpenSound b0 t0 s → Reach b0 t0 t →
        (openFuel (f + 1) s t).1 ≠ PyResult.fuelOut →
        ∃ b', openFuel (f + 1) s t = (PyResult.ret true, b') ∧ Evolves s b' ∧
          OpenSound b0 t0 b' ∧ (b'.cells t).is_open = true ∧ NewSaturated b0 s b' := by
      intro s t hev hsound hreach hnfo
      have hflags : ∀ q, (s.cells q).is_flagged = false := fun q => by
        rw [hev.flagged q]
        exact (hFr q).2
      have htmem : t ∈ b0.board_cells := reach_mem ht0 hreach
      have htmine : (b0.cells t).mine = false := reach_not_mine hGL ht0 hsafe0 hreach
      have hflagged_nil : s.get_neighbors_flagged t = [] := by
        rw [GameBoard.get_neighbors_flagged]
        exact List.filter_eq_nil_iff.mpr (fun a _ => by simp [hflags a])
      have hpi : pyInt (s.cells t).name =
          some ((b0.get_neighbors t).filter (fun x => (b0.cells x).mine)).length := by
        rw [hev.name]
        exact pyInt_label hGL htmem htmine
      by_cases hop : (s.cells t).is_open = true
      · -- the target is already open: a chord visit
        by_cases hsafeb0 : (b0.cells t).is_safe = true
        · -- zero-label cell: the chord fires and behaves like the cascade
          have hcount := (safe_iff_count_zero hGL htmem htmine).mp hsafeb0
          have hcheq := openFuel_chord_eq f s t _ (hflags t) hop hpi
            (by rw [hflagged_nil]; simpa using hcount)
          have hallL : ∀ q ∈ s.get_neighbors_unmarked t, Reach b0 t0 q := by
            intro q hq
            have hmem := (List.mem_filter.mp hq).1
            rw [GameBoard.get_neighbors_unmarked] at hq
            rw [hev.get_neighbors_eq] at hmem
            exact Reach.step hreach hsafeb0 hmem
          rcases hL : openList (openFuel f) s (s.get_neighbors_unmarked t) with ⟨r, bL⟩
          rw [hL] at hcheq
          cases r with
          | fuelOut =>
            exact absurd (by rw [hcheq]) hnfo
          | exn =>
            obtain ⟨b', hL', _, _, _, _⟩ := ih.2 s (s.get_neighbors_unmarked t) hev hsound
              hallL (by rw [hL]; simp)
            rw [hL] at hL'
            cases hL'
          | ret v =>
            obtain ⟨b', hL', hev', hsound', hall', hsat'⟩ := ih.2 s
              (s.get_neighbors_unmarked t) hev hsound hallL (by rw [hL]; simp)
            rw [hL] at hL'
            injection hL' with hL1 hL2
            subst hL2
            refine ⟨bL, hcheq, hev', hsound', hev'.open_mono t hop, hsat'⟩
        · -- numbered cell: zero flagged neighbours never match its label
          have hne : ((b0.get_neighbors t).filter (fun x => (b0.cells x).mine)).length ≠
              (s.get_neighbors_flagged t).length := by
            rw [hflagged_nil]
            intro habs
            exact hsafeb0 ((safe_iff_count_zero hGL htmem htmine).mpr (by simpa using habs))
          have hcheq := openFuel_chord_ne f s t _ (hflags t) hop hpi hne
          exact ⟨s, hcheq, Evolves.refl s, hsound, hop, NewSaturated.of_self b0 s⟩
      · -- the target is not yet open: it is opened now
        have hop' : (s.cells t).is_open = false := by simpa using hop
        have hmine_s : (s.cells t).mine = false := by
          rw [hev.mine]
          exact htmine
        have hevb1 : Evolves s (s.setCell t { s.cells t with is_open := true }) :=
          evolves_setCell_open s t
        have hevb01 : Evolves b0 (s.setCell t { s.cells t with is_open := true }) :=
          hev.trans hevb1
        have hsoundb1 : OpenSound b0 t0 (s.setCell t { s.cells t with is_open := true }) := by
          intro q hq
          rw [setCell_cells] at hq
          by_cases hqt : q = t
          · exact hqt ▸ hreach
          · rw [if_neg hqt] at hq
            exact hsound q hq
        have htopen1 : ((s.setCell t { s.cells t with is_open := true }).cells t).is_open =
            true := by
          rw [setCell_cells, if_pos rfl]
        by_cases hsafeb0 : (b0.cells t).is_safe = true
        · -- safe cell: cascade over the unmarked neighbours
          have hsafes : (s.cells t).is_safe = true := by
            rw [hev.safe_eq]
            exact hsafeb0
          have hcheq := openFuel_new_safe f s t (hflags t) hop' hmine_s hsafes
          have hallL : ∀ q ∈ (s.setCell t { s.cells t with is_open := true
              }).get_neighbors_unmarked t, Reach b0 t0 q := by
            intro q hq
            have hmem := (List.mem_filter.mp hq).1
            rw [hevb01.get_neighbors_eq] at hmem
            exact Reach.step hreach hsafeb0 hmem
          rcases hL : openList (openFuel f) (s.setCell t { s.cells t with is_open := true })
            ((s.setCell t { s.cells t with is_open := true }).get_neighbors_unmarked t)
            with ⟨r, bL⟩
          rw [hL] at hcheq
          cases r with
          | fuelOut =>
            exact absurd (by rw [hcheq]) hnfo
          | exn =>
            obtain ⟨b', hL', _, _, _, _⟩ := ih.2 _ _ hevb01 hsoundb1 hallL (by rw [hL]; simp)
            rw [hL] at hL'
            cases hL'
          | ret v =>
            obtain ⟨b', hL', hev', hsound', hall', hsat'⟩ := ih.2 _ _ hevb01 hsoundb1 hallL
              (by rw [hL]; simp)
            rw [hL] at hL'
            injection hL' with hL1 hL2
            subst hL2
            refine ⟨bL, hcheq, hevb1.trans hev', hsound', hev'.open_mono t htopen1, ?_⟩
            intro c hc hnc hcsafe q hq
            by_cases hct : c = t
            · subst hct
              by_cases hqopen : ((s.setCell c { s.cells c with is_open := true }).cells
                  q).is_open = true
              · exact hev'.open_mono q hqopen
              · refine hall' q ?_
                rw [GameBoard.get_neighbors_unmarked, List.mem_filter]
                refine ⟨?_, ?_⟩
                · rw [hevb01.get_neighbors_eq]
                  exact hq
                · have hqfl : ((s.setCell c { s.cells c with is_open := true }).cells
                      q).is_flagged = false := by
                    rw [hevb1.flagged q]
                    exact hflags q
                  simp [hqfl, hqopen]
            · have hnc1 : ((s.setCell t { s.cells t with is_open := true }).cells
                  c).is_open = false := by
                rw [setCell_cells, if_neg hct]
                exact hnc
              exact hsat' c hc hnc1 hcsafe q hq
        · -- numbered cell: no cascade
          have hsafes : (s.cells t).is_safe = false := by
            rw [hev.safe_eq]
            simpa using hsafeb0
          have hcheq := openFuel_new_notsafe f s t (hflags t) hop' hmine_s hsafes
          refine ⟨s.setCell t { s.cells t with is_open := true }, hcheq, hevb1, hsoundb1,
            htopen1, ?_⟩
          intro c hc hnc hcsafe q hq
          by_cases hct : c = t
          · subst hct
            exact absurd hsafeb0 (by rw [hcsafe]; simp)
          · rw [setCell_cells, if_neg hct] at hc
            rw [hc] at hnc
            cases hnc
    refine ⟨hmain, ?_⟩
    intro s L hev hsound hall hnfo
    induction L generalizing s with
    | nil => exact ⟨s, rfl, Evolves.refl s, hsound, by simp, NewSaturated.of_self b0 s⟩
    | cons q rest ihL =>
      rw [openList_cons] at hnfo ⊢
      rcases hg : openFuel (f + 1) s q with ⟨r1, b1⟩
      rw [hg] at hnfo
      have hr1 : r1 ≠ PyResult.fuelOut := by
        intro habs
        subst habs
        exact hnfo rfl
      obtain ⟨b1', hg', hev1, hsound1, hq1, hsat1⟩ := hmain s q hev hsound
        (hall q (List.mem_cons_self q rest)) (by rw [hg]; simpa using hr1)
      rw [hg] at hg'
      injection hg' with hg1 hg2
      subst hg2
      subst hg1
      obtain ⟨b', hrest, hev', hsound', hall', hsat'⟩ := ihL b1 (hev.trans hev1) hsound1
        (fun x hx => hall x (List.mem_cons_of_mem q hx)) hnfo
      refine ⟨b', hrest, hev1.trans hev', hsound', ?_, ?_⟩
      · intro x hx
        rcases List.mem_cons.mp hx with rfl | hx
        · exact hev'.open_mono x hq1
        · exact hall' x hx
      · exact NewSaturated.compose hsat1 hsat' hev'

theorem openCoord_def (b : GameBoard) (p : Nat × Nat) :
    b.openCoord p = openFuel (b.r_size * b.c_size + 1) b p := rfl

theorem create_cells_eq (rs cs : Nat) (mines : List (Nat × Nat)) (p : Nat × Nat) :
    (GameBoard.create rs cs mines).cells p =
      if p ∈ mines then { name := "M", mine := true }
      else { name := toString ((neighborsOf rs cs p).filter
        (fun q => decide (q ∈ mines))).length, mine := false } := rfl

theorem create_fresh (rs cs : Nat) (mines : List (Nat × Nat)) :
    Fresh (GameBoard.create rs cs mines) := by
  intro q
  rw [create_cells_eq]
  by_cases h : q ∈ mines
  · rw [if_pos h]
    exact ⟨rfl, rfl⟩
  · rw [if_neg h]
    exact ⟨rfl, rfl⟩

/-- Counterexample to claim C1 as stated: on a fresh 3-by-3 board with one
mine at (0,0), flag the zero-label cell (1,2) and then open the safe cell
(0,2).  The cell (2,0) belongs to the connected zero-label region of (0,2)
(through (1,2) and (2,1)), but the flag on (1,2) blocks the cascade: the call
returns True and (2,0) — unflagged and in the region — stays closed, so
"opens the entire connected zero-label region" fails. -/
theorem claim_C1_counterexample :
    ((applyOps (GameBoard.create 3 3 [(0, 0)]) [Op.flagOp (1, 2)]).cells (0, 2)).is_open =
      false ∧
    ((applyOps (GameBoard.create 3 3 [(0, 0)]) [Op.flagOp (1, 2)]).cells (0, 2)).is_flagged =
      false ∧
    ((applyOps (GameBoard.create 3 3 [(0, 0)]) [Op.flagOp (1, 2)]).cells (0, 2)).is_safe =
      true ∧
    Reach (applyOps (GameBoard.create 3 3 [(0, 0)]) [Op.flagOp (1, 2)]) (0, 2) (2, 0) ∧
    ((applyOps (GameBoard.create 3 3 [(0, 0)]) [Op.flagOp (1, 2)]).openCoord (0, 2)).1 =
      PyResult.ret true ∧
    ((applyOps (GameBoard.create 3 3 [(0, 0)]) [Op.flagOp (1, 2)]).cells (2, 0)).is_flagged =
      false ∧
    (((applyOps (GameBoard.create 3 3 [(0, 0)]) [Op.flagOp (1, 2)]).openCoord
      (0, 2)).2.cells (2, 0)).is_open = false := by
  have h1 : Reach (applyOps (GameBoard.create 3 3 [(0, 0)]) [Op.flagOp (1, 2)]) (0, 2) (1, 2) :=
    Reach.step Reach.base (by decide) (by decide)
  have h2 : Reach (applyOps (GameBoard.create 3 3 [(0, 0)]) [Op.flagOp (1, 2)]) (0, 2) (2, 1) :=
    Reach.step h1 (by decide) (by decide)
  have h3 : Reach (applyOps (GameBoard.create 3 3 [(0, 0)]) [Op.flagOp (1, 2)]) (0, 2) (2, 0) :=
    Reach.step h2 (by decide) (by decide)
  exact ⟨by decide, by decide, by decide, h3, by decide, by decide, by decide⟩

/-- Claim C1, amended: on a correctly labelled board with no open and no
flagged cells, opening a safe cell (not a mine, zero neighbour-mine count)
returns True, opens exactly the connected zero-label region of the target
together with its bordering cells (the cells reachable by stepping from safe
cells to their neighbours), and never opens a mine.  On boards with flags or
previously opened cells the cascade is blocked at those cells, so the fresh
board hypothesis is necessary (see the counterexample). -/
theorem claim_C1 : ∀ (b0 : GameBoard) (t0 : Nat × Nat),
    GoodLabels b0 → Fresh b0 → t0 ∈ b0.board_cells → (b0.cells t0).is_safe = true →
    (b0.openCoord t0).1 = PyResult.ret true ∧
    (∀ q, (((b0.openCoord t0).2).cells q).is_open = true ↔ Reach b0 t0 q) ∧
    (∀ q, (b0.cells q).mine = true → (((b0.openCoord t0).2).cells q).is_open = false) := by
  intro b0 t0 hGL hFr ht0 hsafe0
  have hnfo : (openFuel (b0.r_size * b0.c_size + 1) b0 t0).1 ≠ PyResult.fuelOut :=
    openCoord_no_fuelOut b0 t0 ht0
  obtain ⟨b', heq, hev, hsound, htopen, hsat⟩ :=
    (flood_aux b0 t0 hGL hFr ht0 hsafe0 (b0.r_size * b0.c_size + 1)).1 b0 t0
      (Evolves.refl b0)
      (fun q hq => absurd hq (by rw [(hFr q).1]; exact Bool.false_ne_true))
      Reach.base hnfo
  rw [openCoord_def, heq]
  refine ⟨rfl, ?_, ?_⟩
  · intro q
    constructor
    · exact fun h => hsound q h
    · intro hr
      induction hr with
      | base => exact htopen
      | step hr hsafe hq ihq =>
        rename_i c q'
        exact hsat c ihq (hFr c).1 hsafe q' hq
  · intro q hm
    by_contra habs
    simp only [Bool.not_eq_false] at habs
    have hr := hsound q habs
    have hnm := reach_not_mine hGL ht0 hsafe0 hr
    rw [hm] at hnm
    cases hnm

/-- Witness for claim C1 at a concrete input: opening the safe corner (0,2) of
a fresh 3-by-3 board with one mine at (0,0). -/
theorem claim_C1_witness :
    GoodLabels (GameBoard.create 3 3 [(0, 0)]) ∧
    Fresh (GameBoard.create 3 3 [(0, 0)]) ∧
    (0, 2) ∈ (GameBoard.create 3 3 [(0, 0)]).board_cells ∧
    ((GameBoard.create 3 3 [(0, 0)]).cells (0, 2)).is_safe = true ∧
    (((GameBoard.create 3 3 [(0, 0)]).openCoord (0, 2)).1 = PyResult.ret true ∧
      (∀ q, ((((GameBoard.create 3 3 [(0, 0)]).openCoord (0, 2)).2).cells q).is_open =
          true ↔ Reach (GameBoard.create 3 3 [(0, 0)]) (0, 2) q) ∧
      (∀ q, ((GameBoard.create 3 3 [(0, 0)]).cells q).mine = true →
        ((((GameBoard.create 3 3 [(0, 0)]).openCoord (0, 2)).2).cells q).is_open =
          false)) := by
  have hGL : GoodLabels (GameBoard.create 3 3 [(0, 0)]) := by
    unfold GoodLabels
    decide
  have hFr : Fresh (GameBoard.create 3 3 [(0, 0)]) := create_fresh 3 3 [(0, 0)]
  exact ⟨hGL, hFr, by decide, by decide,
    claim_C1 (GameBoard.create 3 3 [(0, 0)]) (0, 2) hGL hFr (by decide) (by decide)⟩
